import Mathlib

set_option maxRecDepth 40000
set_option linter.unnecessarySeqFocus false

/-!
Verification of the deterministic review pipeline of the Fliplet AI PR review
action: diff parsing, token-budget allocation, platform impact assessment,
complexity scoring, reviewer-output validation and review posting.

Each definition is a shallow embedding of the corresponding JavaScript
function; JS numbers that only ever hold non-negative integers are modelled
as `Nat`, JS strings as `String`, fallible results as `Option`.
-/

namespace PRReview

/-- JS `s.includes(sub)` on char lists: `true` iff `needle` occurs as a
contiguous run inside the list. -/
def includesAux (needle : List Char) : List Char → Bool
  | [] => needle.isPrefixOf []
  | c :: rest => needle.isPrefixOf (c :: rest) || includesAux needle rest

/-- JS `s.includes(sub)` (substring containment). -/
def strIncludes (s sub : String) : Bool :=
  includesAux sub.toList s.toList

/-- JS `s.toLowerCase()` (the paths and keywords involved are ASCII). -/
def strToLower (s : String) : String :=
  String.mk (s.toList.map Char.toLower)

/-- JS `s.toUpperCase()`. -/
def strToUpper (s : String) : String :=
  String.mk (s.toList.map Char.toUpper)

/-- JS `s.startsWith(p)`. -/
def strStartsWith (s p : String) : Bool :=
  p.toList.isPrefixOf s.toList

/-- JS `s.endsWith(p)` (also how a `$`-anchored regex matches). -/
def strEndsWith (s p : String) : Bool :=
  p.toList.reverse.isPrefixOf s.toList.reverse

/-- JS `s.slice(n)` for a non-negative index. -/
def strDrop (s : String) (n : Nat) : String :=
  String.mk (s.toList.drop n)

/-- JS `s.trim()`. -/
def strTrim (s : String) : String :=
  String.mk (((s.toList.dropWhile Char.isWhitespace).reverse.dropWhile
    Char.isWhitespace).reverse)

/-- JS `s.split('\n')` on the character level. -/
def splitNlAux : List Char → List (List Char)
  | [] => [[]]
  | c :: rest =>
    let r := splitNlAux rest
    if c = '\n' then [] :: r
    else
      match r with
      | [] => [[c]]
      | h :: t => (c :: h) :: t

/-- JS `diffText.split('\n')`. -/
def splitLines (s : String) : List String :=
  (splitNlAux s.toList).map String.mk

/-- JS `s.replace(/\|/g, '\\|')`: escape every pipe character. -/
def escapePipes (s : String) : String :=
  String.mk (s.toList.foldr (fun c acc =>
    if c = '|' then '\\' :: '|' :: acc else c :: acc) [])

/-- Case-insensitive substring test: the encoding of a JS regex `/pat/i`
whose body is a plain lowercase string (no metacharacters). -/
def testCI (pat path : String) : Bool :=
  strIncludes (strToLower path) pat

/-- `src/token-budget.js` `estimateTokens`: `Math.ceil(text.length / 4)`
(`0` for empty text, which agrees with the formula on `Nat`). -/
def estimateTokens (text : String) : Nat :=
  (text.length + 3) / 4

/-! ## Data model: parsed diff files (`src/diff-parser.js`) -/

/-- One line of a hunk.  Additions/deletions carry the line number in the
new/old file version respectively; context lines carry both. -/
inductive Change where
  | addition (content : String) (line : Nat)
  | deletion (content : String) (line : Nat)
  | context (content : String) (oldLine newLine : Nat)
deriving DecidableEq, Repr

/-- A contiguous block of changes under one `@@ ... @@` header. -/
structure Hunk where
  header : String
  context : String
  changes : List Change
deriving DecidableEq, Repr

/-- One file touched by the diff.  `truncated` is absent (falsy) on files
produced by the parser and set by `truncateFile`. -/
structure DiffFile where
  path : String
  status : String
  hunks : List Hunk
  additions : Nat
  deletions : Nat
  truncated : Bool := false
deriving DecidableEq, Repr

/-- Number of addition changes across a list of hunks. -/
def countAdditions (hunks : List Hunk) : Nat :=
  (hunks.map (fun h => (h.changes.filter
    (fun c => match c with | .addition _ _ => true | _ => false)).length)).sum

/-- Number of deletion changes across a list of hunks. -/
def countDeletions (hunks : List Hunk) : Nat :=
  (hunks.map (fun h => (h.changes.filter
    (fun c => match c with | .deletion _ _ => true | _ => false)).length)).sum

/-! ## Constants (`src/constants.js`, the module that also exports the
platform pattern categories used by `src/platform-impact.js`) -/

/-- `SECURITY_SENSITIVE_PATTERNS`: each `/…/i` regex body is a plain string,
matched case-insensitively as a substring. -/
def SECURITY_SENSITIVE_PATTERNS : List String :=
  ["auth", "middleware", "migration", "session", "encrypt", "password",
   "token", "permission", "sql", "route", "api/", "secret", "crypt",
   "sanitiz", "valid", "login"]

/-- `COMPLEXITY_KEYWORDS`. -/
def COMPLEXITY_KEYWORDS : List String :=
  ["refactor", "migration", "security", "architecture", "breaking",
   "rewrite", "endpoint", "schema", "database"]

/-- `MODELS.SONNET`. -/
def MODELS_SONNET : String := "claude-sonnet-4-20250514"

/-- `MODELS.OPUS`. -/
def MODELS_OPUS : String := "claude-opus-4-5-20250514"

/-! ## `src/token-budget.js` -/

/-- `isSecurityFile`: some security pattern matches the path. -/
def isSecurityFile (filePath : String) : Bool :=
  SECURITY_SENSITIVE_PATTERNS.any (fun p => testCI p filePath)

/-- `isCoreFile`: `CORE_FILE_PATTERNS` are `$`-anchored and case-sensitive
(`/index\.js$/`, `/app\.js$/`, `/server\.js$/`). -/
def isCoreFile (filePath : String) : Bool :=
  strEndsWith filePath "index.js" || strEndsWith filePath "app.js" ||
    strEndsWith filePath "server.js"

/-- `filePriority`: change volume, `+1000` for security files, `+500` for
core files. -/
def filePriority (file : DiffFile) : Nat :=
  file.additions + file.deletions +
    (if isSecurityFile file.path then 1000 else 0) +
    (if isCoreFile file.path then 500 else 0)

/-- The `+`/`-`/space marker line a change contributes to the prompt. -/
def formatChange (c : Change) : String :=
  match c with
  | .addition content _ => "+" ++ content ++ "\n"
  | .deletion content _ => "-" ++ content ++ "\n"
  | .context content _ _ => " " ++ content ++ "\n"

/-- `[status]` label shown unless the status is empty or `modified`. -/
def statusLabel (file : DiffFile) : String :=
  if file.status ≠ "" ∧ file.status ≠ "modified" then " [" ++ file.status ++ "]" else ""

/-- The text of one hunk as accumulated inside `truncateFile`
(header line plus marker lines, no trailing blank line). -/
def hunkText (h : Hunk) : String :=
  h.header ++ "\n" ++ String.join (h.changes.map formatChange)

/-- `formatFileForPrompt`: header line, then each hunk followed by a blank
line. -/
def formatFileForPrompt (file : DiffFile) : String :=
  "### " ++ file.path ++ statusLabel file ++ " (+" ++ toString file.additions ++
    "/-" ++ toString file.deletions ++ ")\n" ++
    String.join (file.hunks.map (fun h => hunkText h ++ "\n"))

/-- The hunk-selection loop of `truncateFile`: keep leading hunks whose
individual estimates fit, stopping at the first one that does not. -/
def takeHunks : List Hunk → Nat → List Hunk
  | [], _ => []
  | h :: t, r =>
    let ht := estimateTokens (hunkText h)
    if ht ≤ r then h :: takeHunks t (r - ht) else []

/-- `truncateFile`: budget a `(truncated)` header line, then keep the first
hunks that fit; `none` when nothing fits (JS `null`).  `Nat` subtraction
agrees with the JS arithmetic because the JS code only uses `remaining`
when it is positive. -/
def truncateFile (file : DiffFile) (maxTokens : Nat) : Option DiffFile :=
  let headerTokens := estimateTokens
    ("### " ++ file.path ++ statusLabel file ++ " (truncated)\n")
  let remaining := maxTokens - headerTokens
  if remaining = 0 then none
  else
    let truncatedHunks := takeHunks file.hunks remaining
    if truncatedHunks.length = 0 then none
    else some { file with hunks := truncatedHunks, truncated := true }

/-- One step of `truncateDiff`'s greedy loop over the sorted files,
accumulating `(included, currentTokens)`. -/
def allocStep (maxTokens : Nat) (acc : List DiffFile × Nat) (file : DiffFile) :
    List DiffFile × Nat :=
  let fileTokens := estimateTokens (formatFileForPrompt file)
  if acc.2 + fileTokens ≤ maxTokens then (acc.1 ++ [file], acc.2 + fileTokens)
  else
    let remaining := maxTokens - acc.2
    if 200 < remaining then
      match truncateFile file remaining with
      | some t => (acc.1 ++ [t], acc.2 + estimateTokens (formatFileForPrompt t))
      | none => acc
    else acc

/-- Result shape of `truncateDiff`. -/
structure BudgetResult where
  files : List DiffFile
  totalFiles : Nat
  includedFiles : Nat
  truncated : Bool
  estimatedTokens : Nat
deriving DecidableEq, Repr

/-- Descending priority order used by `truncateDiff`'s sort comparator. -/
def priorityGE (a b : DiffFile) : Prop :=
  filePriority b ≤ filePriority a

instance : DecidableRel priorityGE := fun a b =>
  inferInstanceAs (Decidable (filePriority b ≤ filePriority a))

/-- `truncateDiff`: sort by priority descending, then greedily include
whole files and attempt a partial inclusion when more than 200 tokens of
budget remain, continuing past oversized files. -/
def truncateDiff (files : List DiffFile) (maxTokens : Nat) : BudgetResult :=
  let sorted := List.insertionSort priorityGE files
  let acc := sorted.foldl (allocStep maxTokens) ([], 0)
  { files := acc.1
    totalFiles := files.length
    includedFiles := acc.1.length
    truncated := decide (acc.1.length < files.length)
    estimatedTokens := acc.2 }

/-! ## `src/diff-parser.js` -/

/-- Parse a maximal nonempty run of decimal digits, returning its value and
the rest (the `(\d+)` groups of the hunk-header regex). -/
def readDigits (cs : List Char) : Option (Nat × List Char) :=
  let digits := cs.takeWhile Char.isDigit
  if digits.isEmpty then none
  else some (digits.foldl (fun acc c => 10 * acc + (c.toNat - 48)) 0,
    cs.dropWhile Char.isDigit)

/-- The optional `(?:,(\d+))?` group: if a comma follows it must be
followed by digits (which are consumed and discarded). -/
def skipOptCount (cs : List Char) : Option (List Char) :=
  match cs with
  | ',' :: rest =>
    match readDigits rest with
    | some (_, rest2) => some rest2
    | none => none
  | _ => some cs

/-- The hunk-header regex
`/^@@ -(\d+)(?:,(\d+))? \+(\d+)(?:,(\d+))? @@(.*)/`: returns the old start,
new start and the trailing context capture. -/
def parseHunkHeader (line : String) : Option (Nat × Nat × String) :=
  match line.toList with
  | '@' :: '@' :: ' ' :: '-' :: rest =>
    match readDigits rest with
    | none => none
    | some (o, rest1) =>
      match skipOptCount rest1 with
      | none => none
      | some rest2 =>
        match rest2 with
        | ' ' :: '+' :: rest3 =>
          match readDigits rest3 with
          | none => none
          | some (n, rest4) =>
            match skipOptCount rest4 with
            | none => none
            | some rest5 =>
              match rest5 with
              | ' ' :: '@' :: '@' :: ctx => some (o, n, String.mk ctx)
              | _ => none
        | _ => none
  | _ => none

/-- Replace the element at index `i` (no-op when out of range), mirroring
in-place mutation of an array element. -/
def listModify (l : List α) (i : Nat) (f : α → α) : List α :=
  match l, i with
  | [], _ => []
  | a :: t, 0 => f a :: t
  | a :: t, n + 1 => a :: listModify t n f

/-- Parser state: the materialized files so far, plus the mutable cursor
variables of the JS loop.  `curFile` is the index of `currentFile` inside
`files` (every materialized file is pushed immediately); `curHunk` is the
`(file index, hunk index)` position of `currentHunk`, which the JS code
does NOT reset when a new `+++ b/` path line is seen. -/
structure ParseState where
  files : List DiffFile
  curFile : Option Nat
  curHunk : Option (Nat × Nat)
  oldLine : Nat
  newLine : Nat
  pendingStatus : String
deriving Repr

/-- Append a change to hunk `j` of file `i`. -/
def pushChange (files : List DiffFile) (i j : Nat) (c : Change) : List DiffFile :=
  listModify files i (fun f =>
    { f with hunks := listModify f.hunks j (fun h => { h with changes := h.changes ++ [c] }) })

/-- The `+`/`-`/space content-line handling at the bottom of the JS loop
(only runs when both `currentHunk` and `currentFile` are set; the change is
pushed into `currentHunk`'s file while the counter is bumped on
`currentFile`'s). -/
def contentStep (s : ParseState) (line : String) : ParseState :=
  match s.curHunk, s.curFile with
  | some (i, j), some k =>
    if strStartsWith line "+" then
      { s with
        files := listModify (pushChange s.files i j (.addition (strDrop line 1) s.newLine)) k
          (fun f => { f with additions := f.additions + 1 })
        newLine := s.newLine + 1 }
    else if strStartsWith line "-" then
      { s with
        files := listModify (pushChange s.files i j (.deletion (strDrop line 1) s.oldLine)) k
          (fun f => { f with deletions := f.deletions + 1 })
        oldLine := s.oldLine + 1 }
    else if strStartsWith line " " then
      { s with
        files := pushChange s.files i j (.context (strDrop line 1) s.oldLine s.newLine)
        oldLine := s.oldLine + 1
        newLine := s.newLine + 1 }
    else s
  | _, _ => s

/-- One iteration of `parseDiff`'s line loop. -/
def parseStep (s : ParseState) (line : String) : ParseState :=
  if strStartsWith line "diff --git" then
    { s with curFile := none, curHunk := none, pendingStatus := "modified" }
  else if strStartsWith line "new file mode" then { s with pendingStatus := "added" }
  else if strStartsWith line "deleted file mode" then { s with pendingStatus := "deleted" }
  else if strStartsWith line "rename from " then { s with pendingStatus := "renamed" }
  else if strStartsWith line "rename to " then s
  else if strStartsWith line "--- /dev/null" then { s with pendingStatus := "added" }
  else if strStartsWith line "--- " then s
  else if strStartsWith line "+++ /dev/null" then { s with pendingStatus := "deleted" }
  else if strStartsWith line "+++ b/" then
    let newFile : DiffFile :=
      { path := strDrop line 6, status := s.pendingStatus, hunks := [],
        additions := 0, deletions := 0 }
    { s with files := s.files ++ [newFile], curFile := some s.files.length }
  else
    match parseHunkHeader line, s.curFile with
    | some (o, n, ctx), some i =>
      { s with
        oldLine := o
        newLine := n
        files := listModify s.files i (fun f =>
          { f with hunks := f.hunks ++ [{ header := line, context := strTrim ctx, changes := [] }] })
        curHunk := some (i, ((s.files.get? i).map (fun f => f.hunks.length)).getD 0) }
    | _, _ => contentStep s line

/-- Initial parser state. -/
def initParseState : ParseState :=
  { files := [], curFile := none, curHunk := none, oldLine := 0, newLine := 0,
    pendingStatus := "modified" }

/-- `parseDiff`: split on newlines, run the line loop, return the
materialized files. -/
def parseDiff (diffText : String) : List DiffFile :=
  ((splitLines diffText).foldl parseStep initParseState).files

/-- `isReviewableFile`'s JSON allow-list. -/
def REVIEWABLE_JSON_FILES : List String := ["widget.json"]

/-- `getTotalChanges`. -/
def getTotalChanges (files : List DiffFile) : Nat :=
  (files.map (fun f => f.additions + f.deletions)).sum

/-! ## Reviewer-output validation (`src/claude-reviewer.js`,
`parseToolResponse` / `parseReviewResponse`) -/

/-- A raw comment from the untrusted reviewer output: every field may be
absent. -/
structure RawComment where
  path : Option String
  line : Option Int
  severity : Option String
  body : Option String
deriving DecidableEq, Repr

/-- JS falsiness of an optional string: absent or empty. -/
def falsyStr : Option String → Bool
  | none => true
  | some s => s == ""

/-- JS falsiness of an optional integer number: absent or zero. -/
def falsyInt : Option Int → Bool
  | none => true
  | some n => n == 0

/-- The filter `c.path && c.line && c.body`. -/
def keepRawComment (c : RawComment) : Bool :=
  !falsyStr c.path && !falsyInt c.line && !falsyStr c.body

/-- A validated inline comment. -/
structure ReviewComment where
  path : String
  line : Int
  severity : String
  body : String
deriving DecidableEq, Repr

/-- The recognized severity values. -/
def SEVERITIES : List String := ["critical", "warning", "suggestion"]

/-- The map step: `line: Math.max(1, parseInt(c.line, 10) || 1)` (for an
integer-valued JS number, `parseInt` is the identity) and coercion of an
unrecognized severity to `suggestion`. -/
def normalizeComment (c : RawComment) : ReviewComment :=
  { path := c.path.getD ""
    line := max 1 (c.line.getD 1)
    severity :=
      match c.severity with
      | some s => if s ∈ SEVERITIES then s else "suggestion"
      | none => "suggestion"
    body := c.body.getD "" }

/-- The comment validation shared by `parseToolResponse` and
`parseReviewResponse`: drop falsy-field comments, then normalize. -/
def validateComments (cs : List RawComment) : List ReviewComment :=
  (cs.filter keepRawComment).map normalizeComment

/-- The recognized approval values. -/
def APPROVALS : List String := ["approve", "request_changes", "comment"]

/-- Approval coercion: anything unrecognized becomes `comment`. -/
def normalizeApproval (a : String) : String :=
  if a ∈ APPROVALS then a else "comment"

/-! ## `src/platform-impact.js` -/

/-- One `(file, category, risk, description)` impact record. -/
structure ImpactRecord where
  file : String
  category : String
  risk : String
  description : String
deriving DecidableEq, Repr

/-- The per-category boolean flags. -/
structure ImpactFlags where
  affectsAuth : Bool := false
  affectsData : Bool := false
  affectsMiddleware : Bool := false
  affectsSchema : Bool := false
  affectsRoutes : Bool := false
  affectsDependencies : Bool := false
deriving DecidableEq, Repr

/-- The assessment returned by `assessPlatformImpact`. -/
structure Impact where
  level : String
  impacts : List ImpactRecord
  summary : String
  affectsAuth : Bool
  affectsData : Bool
  affectsMiddleware : Bool
  affectsSchema : Bool
  affectsRoutes : Bool
  affectsDependencies : Bool
  criticalFileCount : Nat
  highFileCount : Nat
deriving DecidableEq, Repr

/-- `RISK_LEVELS` (ordered, highest first). -/
def RISK_LEVELS : List String := ["critical", "high", "medium", "low"]

/-- JS `Array.prototype.indexOf`: first index or `-1`. -/
def jsIndexOf : List String → String → Int
  | [], _ => -1
  | a :: t, s =>
    if a == s then 0
    else
      let r := jsIndexOf t s
      if r == -1 then -1 else r + 1

/-- `higherRisk`: the entry with the smaller index in `RISK_LEVELS` wins;
an unknown string has index `-1` and therefore always wins. -/
def higherRisk (a b : String) : String :=
  if jsIndexOf RISK_LEVELS a ≤ jsIndexOf RISK_LEVELS b then a else b

/-- `ROUTE_FILE_PATTERNS = [/routes\//i]`. -/
def matchesRoute (p : String) : Bool := testCI "routes/" p

/-- `MIGRATION_FILE_PATTERNS = [/models\/migrations\//i, /migrations?\//i]`
(the optional `s?` expands to the two substring alternatives). -/
def matchesMigration (p : String) : Bool :=
  testCI "models/migrations/" p || testCI "migration/" p || testCI "migrations/" p

/-- `DEPENDENCY_FILE_PATTERNS = [/^package\.json$/]` (anchored and
case-sensitive: exact equality). -/
def matchesDependency (p : String) : Bool := p == "package.json"

/-- `MIDDLEWARE_FILE_PATTERNS = [/libs\/middlewares\//i]`. -/
def matchesMiddleware (p : String) : Bool := testCI "libs/middlewares/" p

/-- `AUTH_FILE_PATTERNS`. -/
def matchesAuth (p : String) : Bool :=
  testCI "libs/authenticate" p || testCI "libs/passports" p || testCI "libs/guards" p ||
    testCI "routes/v1/auth" p || testCI "routes/v1/session" p

/-- `DATA_SOURCE_PATTERNS` (`/models\/dataSource/i` lowercases to
`models/datasource`). -/
def matchesDataSource (p : String) : Bool :=
  testCI "libs/datasources" p || testCI "routes/v1/data-sources" p ||
    testCI "models/datasource" p

/-- One `criticalPaths` category of the architecture knowledge file. -/
structure ArchEntry where
  category : String
  files : List String
  risk : String
  description : String
deriving DecidableEq, Repr

/-- Modelled from the spec: the static architecture knowledge file
`standards/fliplet-architecture.json` read by `loadArchitecture` is not in
the source tree.  Section 4.4 describes it as a risk taxonomy of named
categories (authentication, database/migration, data-source, dependency
and route categories), each with an associated risk tier and description,
and the repository's platform-impact tests pin down that it marks
authentication paths (`libs/authenticate`, `libs/guards`), security
primitives (`libs/crypt`) and the database core (`libs/database`) as
critical risk and billing (`libs/billing`) as high risk. -/
def theArchitecture : List ArchEntry :=
  [{ category := "authentication"
     files := ["libs/authenticate", "libs/passports", "libs/guards",
       "routes/v1/auth", "routes/v1/session"]
     risk := "critical"
     description := "Authentication, session and access-control code" },
   { category := "security"
     files := ["libs/crypt", "libs/guards", "libs/encryption"]
     risk := "critical"
     description := "Encryption and security primitives" },
   { category := "database"
     files := ["libs/database", "models/migrations/"]
     risk := "critical"
     description := "Database core and schema migrations" },
   { category := "data-sources"
     files := ["libs/datasources", "routes/v1/data-sources"]
     risk := "high"
     description := "Data source layer" },
   { category := "billing"
     files := ["libs/billing"]
     risk := "high"
     description := "Billing and subscription handling" },
   { category := "api-routes"
     files := ["routes/"]
     risk := "medium"
     description := "Public API route handlers" },
   { category := "dependencies"
     files := ["package.json"]
     risk := "medium"
     description := "Dependency manifest" }]

/-- `loadArchitecture` (the successful read of the static file). -/
def loadArchitecture : List ArchEntry := theArchitecture

/-- Matching of one `criticalPaths` pattern: directory patterns (trailing
slash) also test `startsWith`, otherwise plain `includes`. -/
def matchesArchPattern (filePath pattern : String) : Bool :=
  if strEndsWith pattern "/" then
    strIncludes filePath pattern || strStartsWith filePath pattern
  else strIncludes filePath pattern

/-- Accumulator of the assessment loop. -/
structure AssessState where
  impacts : List ImpactRecord
  level : String
  flags : ImpactFlags
  criticalFileCount : Nat
  highFileCount : Nat
deriving Repr

/-- Inner loop over the architecture categories for one file. -/
def archStep (filePath : String) (st : AssessState) (e : ArchEntry) : AssessState :=
  if e.files.any (matchesArchPattern filePath) then
    { st with
      impacts := st.impacts ++
        [{ file := filePath, category := e.category, risk := e.risk,
           description := e.description }]
      level := higherRisk st.level e.risk
      criticalFileCount := st.criticalFileCount + (if e.risk == "critical" then 1 else 0)
      highFileCount := st.highFileCount + (if e.risk == "high" then 1 else 0) }
  else st

/-- The `AUTH_FILE_PATTERNS` statement: set the flag; raise the level to
at least high unless it is already critical. -/
def authStep (st : AssessState) (p : String) : AssessState :=
  if matchesAuth p then
    { st with flags.affectsAuth := true
              level := if st.level != "critical" then higherRisk st.level "high" else st.level }
  else st

/-- The `DATA_SOURCE_PATTERNS` statement. -/
def dataStep (st : AssessState) (p : String) : AssessState :=
  if matchesDataSource p then
    { st with flags.affectsData := true
              level := if st.level != "critical" then higherRisk st.level "high" else st.level }
  else st

/-- The `MIDDLEWARE_FILE_PATTERNS` statement: forces the level to critical. -/
def middlewareStep (st : AssessState) (p : String) : AssessState :=
  if matchesMiddleware p then
    { st with flags.affectsMiddleware := true, level := higherRisk st.level "critical" }
  else st

/-- The `MIGRATION_FILE_PATTERNS` statement: forces the level to critical. -/
def migrationStep (st : AssessState) (p : String) : AssessState :=
  if matchesMigration p then
    { st with flags.affectsSchema := true, level := higherRisk st.level "critical" }
  else st

/-- The `ROUTE_FILE_PATTERNS` statement: raise to at least medium unless
already critical. -/
def routeStep (st : AssessState) (p : String) : AssessState :=
  if matchesRoute p then
    { st with flags.affectsRoutes := true
              level := if st.level != "critical" then higherRisk st.level "medium" else st.level }
  else st

/-- The `DEPENDENCY_FILE_PATTERNS` statement: raise to at least medium
unless already critical or high. -/
def dependencyStep (st : AssessState) (p : String) : AssessState :=
  if matchesDependency p then
    { st with flags.affectsDependencies := true
              level := if st.level != "critical" && st.level != "high" then
                  higherRisk st.level "medium"
                else st.level }
  else st

/-- Per-file body of the assessment loop: architecture categories first,
then the constant pattern statements in source order. -/
def fileStep (arch : List ArchEntry) (st : AssessState) (file : DiffFile) : AssessState :=
  dependencyStep
    (routeStep
      (migrationStep
        (middlewareStep
          (dataStep
            (authStep (arch.foldl (archStep file.path) st) file.path)
            file.path)
          file.path)
        file.path)
      file.path)
    file.path

/-- Key used to deduplicate impact records. -/
def impactKey (i : ImpactRecord) : String := i.file ++ ":" ++ i.category

/-- Deduplication by `(file, category)` with a `seen` set, keeping first
occurrences. -/
def dedupImpactsAux : List ImpactRecord → List String → List ImpactRecord
  | [], _ => []
  | i :: rest, seen =>
    if impactKey i ∈ seen then dedupImpactsAux rest seen
    else i :: dedupImpactsAux rest (impactKey i :: seen)

/-- `[...new Set(xs)]`: first-occurrence order deduplication. -/
def dedupStringsAux : List String → List String → List String
  | [], _ => []
  | s :: rest, seen =>
    if s ∈ seen then dedupStringsAux rest seen
    else s :: dedupStringsAux rest (s :: seen)

/-- `buildSummary`: empty for low impact, otherwise impacted paths,
affected areas and a risk-appropriate closing sentence. -/
def buildSummary (impacts : List ImpactRecord) (flags : ImpactFlags)
    (level : String) : String :=
  if level == "low" then ""
  else
    let categories := dedupStringsAux (impacts.map (fun i => i.category)) []
    let impactedFiles := dedupStringsAux (impacts.map (fun i => i.file)) []
    let part1 : List String :=
      if 0 < impactedFiles.length then
        let fileExamples := String.intercalate ", " (impactedFiles.take 3)
        let more :=
          if 3 < impactedFiles.length then
            " and " ++ toString (impactedFiles.length - 3) ++ " more"
          else ""
        ["This PR modifies " ++ String.intercalate ", " categories ++ " paths (" ++
          fileExamples ++ more ++ ")."]
      else []
    let warnings : List String :=
      (if flags.affectsAuth then ["authentication"] else []) ++
      (if flags.affectsMiddleware then ["middleware pipeline"] else []) ++
      (if flags.affectsSchema then ["database schema"] else []) ++
      (if flags.affectsData then ["data source layer"] else []) ++
      (if flags.affectsDependencies then ["dependencies"] else [])
    let part2 : List String :=
      if 0 < warnings.length then
        ["Affected areas: " ++ String.intercalate ", " warnings ++ "."]
      else []
    let closing :=
      if level == "critical" then
        "These are critical platform paths — pay special attention to security regressions, breaking changes, and data integrity."
      else if level == "high" then
        "These are high-impact platform paths — check for breaking changes and regressions."
      else "Review for unintended side effects."
    String.intercalate " " (part1 ++ part2 ++ [closing])

/-- `assessPlatformImpact` with the architecture as a parameter (the JS
function loads it itself; factored out so properties can be stated for
arbitrary configurations). -/
def assessWithArchitecture (arch : List ArchEntry) (files : List DiffFile) : Impact :=
  let st0 : AssessState :=
    { impacts := [], level := "low", flags := {}, criticalFileCount := 0,
      highFileCount := 0 }
  let st := files.foldl (fileStep arch) st0
  let uniqueImpacts := dedupImpactsAux st.impacts []
  { level := st.level
    impacts := uniqueImpacts
    summary := buildSummary uniqueImpacts st.flags st.level
    affectsAuth := st.flags.affectsAuth
    affectsData := st.flags.affectsData
    affectsMiddleware := st.flags.affectsMiddleware
    affectsSchema := st.flags.affectsSchema
    affectsRoutes := st.flags.affectsRoutes
    affectsDependencies := st.flags.affectsDependencies
    criticalFileCount := st.criticalFileCount
    highFileCount := st.highFileCount }

/-- `assessPlatformImpact(files, repoName)` (the repo name is unused by
the implementation). -/
def assessPlatformImpact (files : List DiffFile) (repoName : String) : Impact :=
  let _ := repoName
  assessWithArchitecture loadArchitecture files

/-! ## `src/complexity-scorer.js` -/

/-- `scorePRComplexity`: the additive rubric, clamped to 100. -/
def scorePRComplexity (files : List DiffFile) (prTitle prBody : String)
    (platformImpact : Option Impact) : Nat :=
  let totalChanges := (files.map (fun f => f.additions + f.deletions)).sum
  let textToSearch := strToLower (prTitle ++ " " ++ prBody)
  let score :=
    (if 200 < totalChanges then 20 else 0) +
    (if 10 < files.length then 15 else 0) +
    (if files.any (fun f => isSecurityFile f.path) then 25 else 0) +
    (if COMPLEXITY_KEYWORDS.any (fun kw => strIncludes textToSearch kw) then 15 else 0) +
    (if 20 < (files.map (fun f => f.hunks.length)).sum then 10 else 0) +
    (if files.any (fun f => 100 < f.additions + f.deletions) then 15 else 0) +
    (match platformImpact with
     | some pi =>
       (if pi.level == "critical" then 30
        else if pi.level == "high" then 20
        else if pi.level == "medium" then 10 else 0) +
       (if pi.affectsSchema then 15 else 0)
     | none => 0)
  min score 100

/-- `recommendModel`: Opus for score ≥ 40, else Sonnet. -/
def recommendModel (score : Nat) : String :=
  if 40 ≤ score then MODELS_OPUS else MODELS_SONNET

/-! ## `src/github-poster.js` -/

/-- The reviewer's validated verdict, as consumed by `postReview`. -/
structure Verdict where
  summary : String
  approval : String
  comments : List ReviewComment
deriving DecidableEq, Repr

/-- One row of the walkthrough table. -/
structure FileSummary where
  path : String
  summary : String
deriving DecidableEq, Repr

/-- One educational tip. -/
structure Tip where
  title : String
  description : String
deriving DecidableEq, Repr

/-- One related-issue link. -/
structure RelatedIssue where
  id : String
  url : String
deriving DecidableEq, Repr

/-- An inline comment as submitted to the platform. -/
structure PostedComment where
  path : String
  line : Int
  side : String
  body : String
deriving DecidableEq, Repr

/-- The addition line numbers of a file, across all hunks (the set stored
in the valid-line map). -/
def additionLines (f : DiffFile) : List Nat :=
  (f.hunks.map (fun h => h.changes.filterMap (fun c =>
    match c with
    | .addition _ n => some n
    | _ => none))).flatten

/-- `buildValidLineMap` stores one entry per path via `map.set`, so the
last file with a given path wins; looking a path up therefore returns the
last matching file. -/
def lastFileWithPath (files : List DiffFile) (p : String) : Option DiffFile :=
  files.reverse.find? (fun f => f.path == p)

/-- The membership test `fileLines && fileLines.has(c.line)`. -/
def commentInDiff (diffFiles : List DiffFile) (c : ReviewComment) : Bool :=
  match lastFileWithPath diffFiles c.path with
  | some f => (additionLines f).any (fun n => (n : Int) == c.line)
  | none => false

/-- `buildReviewComments`: keep only comments whose `(path, line)` is a
known addition line, anchored to the new side. -/
def buildReviewComments (comments : List ReviewComment)
    (diffFiles : List DiffFile) : List PostedComment :=
  (comments.filter (commentInDiff diffFiles)).map (fun c =>
    { path := c.path, line := c.line, side := "RIGHT", body := c.body })

/-- `mapApprovalToEvent`. -/
def mapApprovalToEvent (approval reviewMode : String) : String :=
  if approval == "approve" then "APPROVE"
  else if approval == "request_changes" then
    if reviewMode == "can-request-changes" then "REQUEST_CHANGES" else "COMMENT"
  else "COMMENT"

/-- `buildStatusBadge`. -/
def buildStatusBadge (review : Verdict) : String :=
  let criticalCount := (review.comments.filter (fun c => c.severity == "critical")).length
  let warningCount := (review.comments.filter (fun c => c.severity == "warning")).length
  let totalIssues := review.comments.length
  if review.approval == "approve" then
    "# ✅ APPROVED\n> No critical issues found\n\n---\n"
  else if review.approval == "request_changes" then
    let subtitle :=
      if 0 < criticalCount then
        "> " ++ toString criticalCount ++ " critical issue" ++
          (if 1 < criticalCount then "s" else "") ++ " require attention"
      else
        "> " ++ toString totalIssues ++ " issue" ++
          (if 1 < totalIssues then "s" else "") ++ " found"
    "# ❌ CHANGES REQUESTED\n" ++ subtitle ++ "\n\n---\n"
  else
    let subtitle :=
      if 0 < warningCount then
        "> " ++ toString warningCount ++ " warning" ++
          (if 1 < warningCount then "s" else "") ++ " to review"
      else
        "> " ++ toString totalIssues ++ " suggestion" ++
          (if 1 < totalIssues then "s" else "") ++ " for improvement"
    "# ⚠️ NEEDS ATTENTION\n" ++ subtitle ++ "\n\n---\n"

/-- `buildWalkthroughTable` (capped at 10 rows with an overflow note). -/
def buildWalkthroughTable (fileSummaries : List FileSummary) : String :=
  let displayed := fileSummaries.take 10
  let overflow := fileSummaries.length - 10
  let rows := String.join (displayed.map (fun f =>
    let p := escapePipes f.path
    let sm := escapePipes (if f.summary == "" then "Modified" else f.summary)
    "| `" ++ p ++ "` | " ++ sm ++ " |\n"))
  "## Walkthrough\n\n| File | Changes |\n|------|--------|\n" ++ rows ++
    (if 0 < overflow then
      "| | *+" ++ toString overflow ++ " more file" ++
        (if 1 < overflow then "s" else "") ++ "* |\n"
     else "") ++ "\n---\n\n"

/-- `buildTipsSection` (max 2 tips). -/
def buildTipsSection (tips : List Tip) : String :=
  "## 💡 Tips\n\n" ++
    String.join ((tips.take 2).map (fun t =>
      "- **" ++ t.title ++ "**: " ++ t.description ++ "\n")) ++
    "\n---\n\n"

/-- `buildLabelSuggestions`. -/
def buildLabelSuggestions (labels : List String) : String :=
  "## 🏷️ Suggested Labels\n\n" ++
    String.intercalate " " (labels.map (fun l => "`" ++ l ++ "`")) ++ "\n\n---\n\n"

/-- `buildRelatedIssues`. -/
def buildRelatedIssues (issues : List RelatedIssue) : String :=
  "## 🔗 Related Issues\n\n" ++
    String.join (issues.map (fun i => "- [" ++ i.id ++ "](" ++ i.url ++ ")\n")) ++
    "\n---\n\n"

/-- `buildImpactBanner`. -/
def buildImpactBanner (pi : Impact) : String :=
  let icon :=
    if pi.level == "critical" then "🚨"
    else if pi.level == "high" then "⚠️"
    else if pi.level == "medium" then "ℹ️" else ""
  let areas : List String :=
    (if pi.affectsAuth then ["Authentication"] else []) ++
    (if pi.affectsMiddleware then ["Middleware"] else []) ++
    (if pi.affectsSchema then ["Database Schema"] else []) ++
    (if pi.affectsData then ["Data Sources"] else []) ++
    (if pi.affectsRoutes then ["API Routes"] else []) ++
    (if pi.affectsDependencies then ["Dependencies"] else [])
  "> " ++ icon ++ " **Platform Impact: " ++ strToUpper pi.level ++ "**\n" ++
    (if 0 < areas.length then "> Affects: " ++ String.intercalate ", " areas else "")

/-- `buildReviewBody`: marker heading, badge, walkthrough, impact banner,
summary, severity table, tips, labels, issues, attribution line. -/
def buildReviewBody (review : Verdict) (platformImpact : Option Impact)
    (fileSummaries : List FileSummary) (tips : List Tip)
    (suggestedLabels : List String) (relatedIssues : List RelatedIssue) : String :=
  let criticalCount := (review.comments.filter (fun c => c.severity == "critical")).length
  let warningCount := (review.comments.filter (fun c => c.severity == "warning")).length
  let suggestionCount := (review.comments.filter (fun c => c.severity == "suggestion")).length
  "## AI Code Review\n\n" ++ buildStatusBadge review ++
    (if 0 < fileSummaries.length then buildWalkthroughTable fileSummaries else "") ++
    (match platformImpact with
     | some pi => if pi.level != "low" then buildImpactBanner pi ++ "\n\n" else ""
     | none => "") ++
    review.summary ++ "\n\n" ++
    (if 0 < review.comments.length then
      "| Severity | Count |\n|----------|-------|\n" ++
        (if criticalCount != 0 then "| 🔴 Critical | " ++ toString criticalCount ++ " |\n" else "") ++
        (if warningCount != 0 then "| 🟡 Warning | " ++ toString warningCount ++ " |\n" else "") ++
        (if suggestionCount != 0 then "| 🔵 Suggestion | " ++ toString suggestionCount ++ " |\n" else "")
     else "") ++
    (if 0 < tips.length then buildTipsSection tips else "") ++
    (if 0 < suggestedLabels.length then buildLabelSuggestions suggestedLabels else "") ++
    (if 0 < relatedIssues.length then buildRelatedIssues relatedIssues else "") ++
    "\n---\n*Powered by Claude AI + Fliplet Standards*"

/-- `formatCommentsAsBody` (body-only fallback). -/
def formatCommentsAsBody (comments : List ReviewComment) : String :=
  "### Review Comments\n\n" ++
    String.join (comments.map (fun c =>
      let icon :=
        if c.severity == "critical" then "🔴"
        else if c.severity == "warning" then "🟡" else "🔵"
      icon ++ " **" ++ c.path ++ ":" ++ toString c.line ++ "**\n\n" ++ c.body ++
        "\n\n---\n\n"))

/-- A review as stored by the platform for one PR. -/
structure PlatformReview where
  user : String
  commit_id : String
  body : String
  state : String
deriving DecidableEq, Repr

/-- The fixed authorship login of reviews created by this workflow. -/
def BOT_LOGIN : String := "github-actions[bot]"

/-- The marker substring carried by every review body this system posts. -/
def REVIEW_MARKER : String := "AI Code Review"

/-- The duplicate-detection predicate of `hasExistingReview`. -/
def isBotReviewOn (sha : String) (r : PlatformReview) : Bool :=
  r.user == BOT_LOGIN && r.commit_id == sha && strIncludes r.body REVIEW_MARKER

/-- `hasExistingReview`: the paged scan visits every review of the PR once,
so it is the existence of a matching review in the full list. -/
def hasExistingReview (reviews : List PlatformReview) (sha : String) : Bool :=
  reviews.any (isBotReviewOn sha)

/-- The dismissal predicate: a bot review carrying a binding verdict. -/
def isDismissTarget (r : PlatformReview) : Bool :=
  (r.user == BOT_LOGIN && strIncludes r.body REVIEW_MARKER) &&
    (r.state == "APPROVED" || r.state == "CHANGES_REQUESTED")

/-- `dismissPreviousBotReviews`: every bot review with a binding verdict is
dismissed (the platform marks it `DISMISSED`). -/
def dismissPreviousBotReviews (reviews : List PlatformReview) : List PlatformReview :=
  reviews.map (fun r => if isDismissTarget r then { r with state := "DISMISSED" } else r)

/-- The platform's review list for the PR together with its current head
commit (the shared state `postReview` reads and writes). -/
structure PRState where
  headSha : String
  reviews : List PlatformReview
deriving DecidableEq, Repr

/-- The outcome object returned by `postReview`. -/
structure PostOutcome where
  event : String
  commentCount : Nat
deriving DecidableEq, Repr

/-- Modelled from the spec: the review-posting service records a created
review with the event's binding state; the review is authored by the
workflow's bot login (the fixed authorship marker of §4.7). -/
def eventToReviewState (event : String) : String :=
  if event == "APPROVE" then "APPROVED"
  else if event == "REQUEST_CHANGES" then "CHANGES_REQUESTED"
  else "COMMENTED"

/-- `postReview` on the successful path, as a transition on the platform
state: skip when the head commit already carries a bot review, otherwise
dismiss stale binding verdicts, map the approval to an event (with the
approval upgrade when no inline comment survives), and create the review. -/
def postReview (st : PRState) (review : Verdict) (reviewMode : String)
    (diffFiles : List DiffFile) (platformImpact : Option Impact)
    (fileSummaries : List FileSummary) (tips : List Tip)
    (suggestedLabels : List String) (relatedIssues : List RelatedIssue) :
    PostOutcome × PRState :=
  if hasExistingReview st.reviews st.headSha then
    ({ event := "SKIPPED", commentCount := 0 }, st)
  else
    let reviews1 := dismissPreviousBotReviews st.reviews
    let event0 := mapApprovalToEvent review.approval reviewMode
    let body := buildReviewBody review platformImpact fileSummaries tips
      suggestedLabels relatedIssues
    let comments := buildReviewComments review.comments diffFiles
    let event :=
      if comments.length == 0 && event0 == "COMMENT" && review.approval == "approve" then
        "APPROVE"
      else event0
    let created : PlatformReview :=
      { user := BOT_LOGIN, commit_id := st.headSha, body := body,
        state := eventToReviewState event }
    ({ event := event, commentCount := comments.length },
      { st with reviews := reviews1 ++ [created] })

/-! ## Auxiliary definitions used by the statements below -/

/-- The file-boundary discipline of standard unified diffs: scanning the
lines with the same branch structure as `parseStep`, no `+++ b/` path line
may be seen while a hunk is open (i.e. each path line is preceded by a
`diff --git` boundary more recently than any hunk header).  The two
booleans track whether a current file resp. hunk exists. -/
def scanOk : List String → Bool → Bool → Bool
  | [], _, _ => true
  | line :: rest, fileB, hunkB =>
    if strStartsWith line "diff --git" then scanOk rest false false
    else if strStartsWith line "new file mode" then scanOk rest fileB hunkB
    else if strStartsWith line "deleted file mode" then scanOk rest fileB hunkB
    else if strStartsWith line "rename from " then scanOk rest fileB hunkB
    else if strStartsWith line "rename to " then scanOk rest fileB hunkB
    else if strStartsWith line "--- /dev/null" then scanOk rest fileB hunkB
    else if strStartsWith line "--- " then scanOk rest fileB hunkB
    else if strStartsWith line "+++ /dev/null" then scanOk rest fileB hunkB
    else if strStartsWith line "+++ b/" then !hunkB && scanOk rest true hunkB
    else
      match parseHunkHeader line with
      | some _ => if fileB then scanOk rest fileB true else scanOk rest fileB hunkB
      | none => scanOk rest fileB hunkB

/-- The count invariant of the data model: `additions`/`deletions` equal
the number of addition/deletion changes across the hunks. -/
def countsOk (f : DiffFile) : Prop :=
  f.additions = countAdditions f.hunks ∧ f.deletions = countDeletions f.hunks

/-- Invariant carried through the parse loop: every materialized file
satisfies the count invariant, the current-file index is in range, and the
current hunk lives at an in-range position inside the current file. -/
def parseInv (s : ParseState) : Prop :=
  (∀ k f, s.files.get? k = some f → countsOk f) ∧
  (∀ i, s.curFile = some i → i < s.files.length) ∧
  (∀ i j, s.curHunk = some (i, j) →
    s.curFile = some i ∧ ∃ f, s.files.get? i = some f ∧ j < f.hunks.length)

/-- Numeric rank of a risk level (`critical` highest), for stating that
`higherRisk` picks the maximum. -/
def riskRank (s : String) : Nat :=
  if s == "critical" then 3
  else if s == "high" then 2
  else if s == "medium" then 1 else 0

/-- Rubric bonus: total changes above 200 lines. -/
def volumeBonus (files : List DiffFile) : Nat :=
  if 200 < (files.map (fun f => f.additions + f.deletions)).sum then 20 else 0

/-- Rubric bonus: more than 10 files. -/
def fileCountBonus (files : List DiffFile) : Nat :=
  if 10 < files.length then 15 else 0

/-- Rubric bonus: any security-sensitive path. -/
def securityBonus (files : List DiffFile) : Nat :=
  if files.any (fun f => isSecurityFile f.path) then 25 else 0

/-- Rubric bonus: a complexity keyword in title or body. -/
def keywordBonus (prTitle prBody : String) : Nat :=
  if COMPLEXITY_KEYWORDS.any
      (fun kw => strIncludes (strToLower (prTitle ++ " " ++ prBody)) kw) then 15 else 0

/-- Rubric bonus: more than 20 hunks in total. -/
def hunkBonus (files : List DiffFile) : Nat :=
  if 20 < (files.map (fun f => f.hunks.length)).sum then 10 else 0

/-- Rubric bonus: a single file with more than 100 changed lines. -/
def largeFileBonus (files : List DiffFile) : Nat :=
  if files.any (fun f => 100 < f.additions + f.deletions) then 15 else 0

/-- Rubric bonus: platform impact level plus the stacking schema bonus. -/
def impactBonus (platformImpact : Option Impact) : Nat :=
  match platformImpact with
  | some pi =>
    (if pi.level == "critical" then 30
     else if pi.level == "high" then 20
     else if pi.level == "medium" then 10 else 0) +
    (if pi.affectsSchema then 15 else 0)
  | none => 0

/-- A minimal security-sensitive file (path matches `/auth/i`, neither
core pattern matches) with no changed lines. -/
def exSecurityFile : DiffFile :=
  { path := "auth.js", status := "modified", hunks := [], additions := 0,
    deletions := 0 }

/-- A core, non-security file (`/app\.js$/` matches, no security pattern
does) with 999 changed lines — below the 1000 security bonus. -/
def exCoreFile : DiffFile :=
  { path := "app.js", status := "modified", hunks := [], additions := 999,
    deletions := 0 }

/-- A file with 66 empty hunks.  Its full prompt text is 872 characters
(218 tokens), while the truncation loop keeps 65 hunks against a
201-token budget because it counts 12 characters per hunk instead of the
13 (header, newline, trailing blank line) that `formatFileForPrompt`
emits, and budgets a shorter header line than the one actually printed. -/
def exManyHunks : DiffFile :=
  { path := "a", status := "modified",
    hunks := List.replicate 66 { header := "@@ -1 +1 @@", context := "", changes := [] },
    additions := 0, deletions := 0 }

/-- A malformed diff in which a second `+++ b/` path line appears while
the first file's hunk is still open (no `diff --git` boundary). -/
def exAliasDiff : String := "+++ b/a\n@@ -1 +1 @@\n+++ b/b\n+x"

/-- The partial inclusion `truncateFile` produces from `exManyHunks` with
201 remaining tokens: the first 65 hunks, marked truncated. -/
def exTruncated : DiffFile :=
  { path := "a", status := "modified",
    hunks := List.replicate 65 { header := "@@ -1 +1 @@", context := "", changes := [] },
    additions := 0, deletions := 0, truncated := true }

/-- A raw reviewer comment with a negative (hence truthy) line number. -/
def exNegLineComment : RawComment :=
  { path := some "a.js", line := some (-3), severity := none, body := some "b" }

/-- A two-line addition diff touching only `libs/authenticate.js`. -/
def exAuthDiff : String :=
  "diff --git a/libs/authenticate.js b/libs/authenticate.js\n--- a/libs/authenticate.js\n+++ b/libs/authenticate.js\n@@ -10,0 +10,2 @@\n+const x = 1;\n+check(x);"

/-- A small ordinary file: neither security-sensitive nor a core file. -/
def exPlainFile : DiffFile :=
  { path := "readme.txt", status := "modified", hunks := [], additions := 1,
    deletions := 1 }

/-- An existing bot review on commit `abc123` carrying the body marker. -/
def exExistingReview : PlatformReview :=
  { user := "github-actions[bot]", commit_id := "abc123",
    body := "## AI Code Review\n\nlooks fine", state := "COMMENTED" }

/-- A platform state whose head commit already has a bot review. -/
def exReviewedState : PRState :=
  { headSha := "abc123", reviews := [exExistingReview] }

/-- A platform state with no reviews yet. -/
def exFreshState : PRState :=
  { headSha := "abc123", reviews := [] }

/-- A simple approved verdict with no comments. -/
def exVerdict : Verdict :=
  { summary := "ok", approval := "approve", comments := [] }

/-- A pure-deletion diff entry: the new side is `/dev/null`, so no
`+++ b/` path line occurs. -/
def exDeletionDiff : String :=
  "diff --git a/gone.js b/gone.js\ndeleted file mode 100644\n--- a/gone.js\n+++ /dev/null\n@@ -1,2 +0,0 @@\n-a\n-b"

/-- A mixed diff: a modified file, then a pure-deletion entry, then
another modified file. -/
def exMixedDiff : String :=
  "diff --git a/x.js b/x.js\n--- a/x.js\n+++ b/x.js\n@@ -1 +1 @@\n+a\ndiff --git a/gone.js b/gone.js\ndeleted file mode 100644\n--- a/gone.js\n+++ /dev/null\n@@ -1,2 +0,0 @@\n-a\n-b\ndiff --git a/y.js b/y.js\n--- a/y.js\n+++ b/y.js\n@@ -2 +2 @@\n+c"

/-- Two files with distinct paths; `x.js` has one hunk with an addition at
new line 4 and 5 and a deletion at old line 3. -/
def exC4Files : List DiffFile :=
  [{ path := "x.js", status := "modified",
     hunks := [{ header := "@@ -3,1 +4,2 @@", context := "",
                 changes := [.deletion "old" 3, .addition "new" 4,
                             .addition "more" 5] }],
     additions := 2, deletions := 1 },
   { path := "y.js", status := "modified", hunks := [], additions := 0,
     deletions := 0 }]

/-- Three validated comments: one on an addition line, one on a deletion
line, one on a path outside the diff. -/
def exC4Comments : List ReviewComment :=
  [{ path := "x.js", line := 4, severity := "warning", body := "w" },
   { path := "x.js", line := 3, severity := "warning", body := "d" },
   { path := "z.js", line := 4, severity := "warning", body := "u" }]

/-- `priorityGE` is total (it compares `Nat` priorities). -/
instance : IsTotal DiffFile priorityGE :=
  ⟨fun a b => Nat.le_total (filePriority b) (filePriority a)⟩

/-- `priorityGE` is transitive. -/
instance : IsTrans DiffFile priorityGE :=
  ⟨fun _ _ _ hab hbc => Nat.le_trans hbc hab⟩

/-! ## Claim theorems -/

/-- C7: the parsed diff of `exAuthDiff` is exactly one file,
`libs/authenticate.js` with 2 additions and 0 deletions, and its impact has
level `critical`, `affectsAuth = true`, and a non-empty summary containing
the word "authentication". -/
theorem c7_authenticate_scenario :
    ((parseDiff exAuthDiff).map (fun f => (f.path, f.additions, f.deletions)) =
      [("libs/authenticate.js", 2, 0)]) ∧
    (assessPlatformImpact (parseDiff exAuthDiff) "fliplet-api").level = "critical" ∧
    (assessPlatformImpact (parseDiff exAuthDiff) "fliplet-api").affectsAuth = true ∧
    (assessPlatformImpact (parseDiff exAuthDiff) "fliplet-api").summary ≠ "" ∧
    strIncludes (assessPlatformImpact (parseDiff exAuthDiff) "fliplet-api").summary
      "authentication" = true := by
  decide

/-- C1 (counterexample): `app.js` is not security-sensitive and its change
volume 999 is below the 1000 security bonus, yet `filePriority` does not
rank the security file `auth.js` above it (the core-file bonus of `app.js`
wins), and the allocator's descending sort places `app.js` first. -/
theorem c1_counterexample :
    isSecurityFile exSecurityFile.path = true ∧
    isSecurityFile exCoreFile.path = false ∧
    exCoreFile.additions + exCoreFile.deletions < 1000 ∧
    ¬ (filePriority exCoreFile < filePriority exSecurityFile) ∧
    List.insertionSort priorityGE [exSecurityFile, exCoreFile] =
      [exCoreFile, exSecurityFile] := by
  decide

/-- C1 (amended): for a security-sensitive file A and a non-security,
non-core file B whose change volume is below the fixed 1000 security
bonus, `filePriority A > filePriority B`, and the allocator's descending
sort places every occurrence of A before every occurrence of B. -/
theorem c1_amended (A B : DiffFile) (hA : isSecurityFile A.path = true)
    (hB : isSecurityFile B.path = false) (hBcore : isCoreFile B.path = false)
    (hvol : B.additions + B.deletions < 1000) :
    filePriority B < filePriority A ∧
    ∀ (files : List DiffFile)
      (i j : Fin (List.insertionSort priorityGE files).length),
      (List.insertionSort priorityGE files).get i = A →
      (List.insertionSort priorityGE files).get j = B → (i : Nat) < (j : Nat) := by
  have h1 : filePriority B < filePriority A := by
    simp only [filePriority, hA, hB, hBcore, if_true, if_false, Bool.false_eq_true,
      ite_true, ite_false]
    split <;> omega
  refine ⟨h1, ?_⟩
  intro files i j hiA hjB
  have hs : (List.insertionSort priorityGE files).Sorted priorityGE :=
    List.sorted_insertionSort priorityGE files
  rcases lt_trichotomy (i : Nat) (j : Nat) with h | h | h
  · exact h
  · exfalso
    have hij : i = j := Fin.ext h
    rw [hij, hjB] at hiA
    rw [← hiA] at hA
    rw [hA] at hB
    exact absurd hB (by decide)
  · exfalso
    have hr := hs.rel_get_of_lt (a := j) (b := i) h
    rw [hiA, hjB] at hr
    exact absurd (show filePriority A ≤ filePriority B from hr) (by omega)

/-- C1 witness: the amended statement instantiated at the concrete pair
`auth.js` (security) and `readme.txt` (plain, volume 2). -/
theorem c1_witness :
    (isSecurityFile exSecurityFile.path = true ∧
     isSecurityFile exPlainFile.path = false ∧
     isCoreFile exPlainFile.path = false ∧
     exPlainFile.additions + exPlainFile.deletions < 1000) ∧
    (filePriority exPlainFile < filePriority exSecurityFile ∧
     ∀ (files : List DiffFile)
       (i j : Fin (List.insertionSort priorityGE files).length),
       (List.insertionSort priorityGE files).get i = exSecurityFile →
       (List.insertionSort priorityGE files).get j = exPlainFile →
       (i : Nat) < (j : Nat)) :=
  ⟨⟨by decide, by decide, by decide, by decide⟩,
    c1_amended exSecurityFile exPlainFile (by decide) (by decide) (by decide)
      (by decide)⟩

/-- C3 (counterexample): a comment with the non-positive line number -3 is
NOT discarded — only falsy (zero or missing) lines are — it survives with
its line clamped to 1. -/
theorem c3_counterexample :
    ((-3 : Int) ≤ 0) ∧
    validateComments [exNegLineComment] =
      [{ path := "a.js", line := 1, severity := "suggestion", body := "b" }] ∧
    validateComments [exNegLineComment] ≠ [] := by
  decide

/-- C3 (amended): validation discards exactly the comments whose path is
missing or empty, whose line is missing or zero, or whose body is missing
or empty (a negative line is kept and clamped); every surviving comment
has line ≥ 1 and severity among critical/warning/suggestion, any other
severity being coerced to suggestion. -/
theorem c3_amended (cs : List RawComment) :
    (∀ r ∈ validateComments cs, 1 ≤ r.line ∧ r.severity ∈ SEVERITIES) ∧
    (validateComments cs).length = (cs.filter keepRawComment).length ∧
    (∀ c ∈ cs, keepRawComment c = false ↔
      (c.path = none ∨ c.path = some "" ∨ c.line = none ∨ c.line = some 0 ∨
       c.body = none ∨ c.body = some "")) := by
  refine ⟨?_, ?_, ?_⟩
  · intro r hr
    simp only [validateComments, List.mem_map] at hr
    obtain ⟨c, -, rfl⟩ := hr
    refine ⟨le_max_left 1 _, ?_⟩
    simp only [normalizeComment]
    cases c.severity with
    | none => decide
    | some s =>
      simp only
      split
      · assumption
      · decide
  · simp [validateComments]
  · intro c _
    rcases c with ⟨p, l, sv, b⟩
    simp only [keepRawComment, falsyStr, falsyInt]
    cases p <;> cases l <;> cases b <;>
      simp [beq_iff_eq, Bool.and_eq_false_iff] <;> tauto

/-- C3 witness: the amended statement at a concrete one-comment list. -/
theorem c3_witness :
    (∀ r ∈ validateComments [exNegLineComment],
      1 ≤ r.line ∧ r.severity ∈ SEVERITIES) ∧
    (validateComments [exNegLineComment]).length =
      ([exNegLineComment].filter keepRawComment).length ∧
    (∀ c ∈ [exNegLineComment], keepRawComment c = false ↔
      (c.path = none ∨ c.path = some "" ∨ c.line = none ∨ c.line = some 0 ∨
       c.body = none ∨ c.body = some "")) :=
  c3_amended [exNegLineComment]

/-- C9: the complexity score is the clamped sum of the independently
evaluated rubric bonuses and lies in [0,100] (it is a `Nat`); a single
non-security file with 2 changed lines, at most 20 hunks, no complexity
keyword and no impact supplied scores exactly 0; and the deep (Opus) tier
is selected exactly when the score is at least 40. -/
theorem c9_score_contract :
    (∀ files prTitle prBody impact,
      scorePRComplexity files prTitle prBody impact ≤ 100 ∧
      scorePRComplexity files prTitle prBody impact =
        min (volumeBonus files + fileCountBonus files + securityBonus files +
          keywordBonus prTitle prBody + hunkBonus files + largeFileBonus files +
          impactBonus impact) 100) ∧
    (∀ f prTitle prBody, isSecurityFile f.path = false →
      f.additions + f.deletions = 2 → f.hunks.length ≤ 20 →
      (∀ kw ∈ COMPLEXITY_KEYWORDS,
        strIncludes (strToLower (prTitle ++ " " ++ prBody)) kw = false) →
      scorePRComplexity [f] prTitle prBody none = 0) ∧
    (∀ score, recommendModel score = MODELS_OPUS ↔ 40 ≤ score) := by
  refine ⟨?_, ?_, ?_⟩
  · intro files prTitle prBody impact
    exact ⟨Nat.min_le_right _ _, rfl⟩
  · intro f prTitle prBody hsec hvol hhunks hkw
    have hany : COMPLEXITY_KEYWORDS.any
        (fun kw => strIncludes (strToLower (prTitle ++ " " ++ prBody)) kw) = false := by
      rw [List.any_eq_false]
      intro kw hk
      rw [hkw kw hk]
      exact Bool.false_ne_true
    simp only [scorePRComplexity, List.map_cons, List.map_nil, List.sum_cons,
      List.sum_nil, List.any_cons, List.any_nil, List.length_cons,
      List.length_nil, hsec, hany, Nat.add_zero, Bool.or_false]
    split_ifs <;> simp_all <;> omega
  · intro score
    unfold recommendModel
    split
    · next h => exact iff_of_true rfl h
    · next h => exact iff_of_false (by decide) h

/-- C9 witness: the zero-score scenario at a concrete trivial file and
text, plus the tier boundary at scores 39 and 40. -/
theorem c9_witness :
    (isSecurityFile exPlainFile.path = false ∧
     exPlainFile.additions + exPlainFile.deletions = 2 ∧
     exPlainFile.hunks.length ≤ 20 ∧
     (∀ kw ∈ COMPLEXITY_KEYWORDS,
       strIncludes (strToLower ("Fix typo" ++ " " ++ "small fix")) kw = false)) ∧
    scorePRComplexity [exPlainFile] "Fix typo" "small fix" none = 0 ∧
    (recommendModel 40 = MODELS_OPUS ↔ 40 ≤ 40) :=
  ⟨⟨by decide, by decide, by decide, by decide⟩,
    c9_score_contract.2.1 exPlainFile "Fix typo" "small fix" (by decide) (by decide)
      (by decide) (by decide),
    c9_score_contract.2.2 40⟩

/-- A generic invariant-preservation principle for `List.foldl`. -/
theorem foldl_preserve {β : Type} {α : Type} (P : β → Prop) (step : β → α → β)
    (l : List α) (init : β) (h : ∀ b a, a ∈ l → P b → P (step b a))
    (h0 : P init) : P (l.foldl step init) := by
  induction l generalizing init with
  | nil => exact h0
  | cons a t ih =>
    exact ih (step init a)
      (fun b x hx hb => h b x (List.mem_cons_of_mem a hx) hb)
      (h init a (List.mem_cons_self a t) h0)

/-- `higherRisk` returns one of its two arguments. -/
theorem higherRisk_or (a b : String) : higherRisk a b = a ∨ higherRisk a b = b := by
  unfold higherRisk
  split
  · exact Or.inl rfl
  · exact Or.inr rfl

/-- Membership in a set of levels is closed under `higherRisk`. -/
theorem higherRisk_closed {a b : String} (ha : a ∈ RISK_LEVELS)
    (hb : b ∈ RISK_LEVELS) : higherRisk a b ∈ RISK_LEVELS := by
  rcases higherRisk_or a b with h | h <;> rw [h] <;> assumption

/-- `indexOf` of an absent element is -1. -/
theorem jsIndexOf_of_not_mem (l : List String) (s : String) (h : s ∉ l) :
    jsIndexOf l s = -1 := by
  induction l with
  | nil => rfl
  | cons a t ih =>
    simp only [List.mem_cons, not_or] at h
    have h1 : (a == s) = false := by
      rw [beq_eq_false_iff_ne]
      exact fun e => h.1 e.symm
    simp [jsIndexOf, h1, ih h.2]

/-- The architecture inner loop preserves level membership. -/
theorem archFold_level (arch : List ArchEntry) (p : String) (st : AssessState)
    (harch : ∀ e ∈ arch, e.risk ∈ RISK_LEVELS) (h : st.level ∈ RISK_LEVELS) :
    (arch.foldl (archStep p) st).level ∈ RISK_LEVELS := by
  refine foldl_preserve (fun s => s.level ∈ RISK_LEVELS) (archStep p) arch st
    ?_ h
  intro b e he hb
  unfold archStep
  split
  · exact higherRisk_closed hb (harch e he)
  · exact hb

/-- `authStep` preserves level membership. -/
theorem authStep_level (st : AssessState) (p : String)
    (h : st.level ∈ RISK_LEVELS) : (authStep st p).level ∈ RISK_LEVELS := by
  unfold authStep
  split
  · simp only
    split
    · exact higherRisk_closed h (by decide)
    · exact h
  · exact h

/-- `dataStep` preserves level membership. -/
theorem dataStep_level (st : AssessState) (p : String)
    (h : st.level ∈ RISK_LEVELS) : (dataStep st p).level ∈ RISK_LEVELS := by
  unfold dataStep
  split
  · simp only
    split
    · exact higherRisk_closed h (by decide)
    · exact h
  · exact h

/-- `middlewareStep` preserves level membership. -/
theorem middlewareStep_level (st : AssessState) (p : String)
    (h : st.level ∈ RISK_LEVELS) : (middlewareStep st p).level ∈ RISK_LEVELS := by
  unfold middlewareStep
  split
  · exact higherRisk_closed h (by decide)
  · exact h

/-- `migrationStep` preserves level membership. -/
theorem migrationStep_level (st : AssessState) (p : String)
    (h : st.level ∈ RISK_LEVELS) : (migrationStep st p).level ∈ RISK_LEVELS := by
  unfold migrationStep
  split
  · exact higherRisk_closed h (by decide)
  · exact h

/-- `routeStep` preserves level membership. -/
theorem routeStep_level (st : AssessState) (p : String)
    (h : st.level ∈ RISK_LEVELS) : (routeStep st p).level ∈ RISK_LEVELS := by
  unfold routeStep
  split
  · simp only
    split
    · exact higherRisk_closed h (by decide)
    · exact h
  · exact h

/-- `dependencyStep` preserves level membership. -/
theorem dependencyStep_level (st : AssessState) (p : String)
    (h : st.level ∈ RISK_LEVELS) : (dependencyStep st p).level ∈ RISK_LEVELS := by
  unfold dependencyStep
  split
  · simp only
    split
    · exact higherRisk_closed h (by decide)
    · exact h
  · exact h

/-- C10: on the four recognized risk levels `higherRisk` is commutative
and picks the maximum (by rank); whenever every risk of the architecture
configuration is recognized, `assessPlatformImpact`'s level stays inside
the enum; and an unrecognized risk string beats even `critical` on both
sides. -/
theorem c10_higher_risk :
    (∀ a b, a ∈ RISK_LEVELS → b ∈ RISK_LEVELS →
      (higherRisk a b = higherRisk b a ∧
       (higherRisk a b = a ∨ higherRisk a b = b) ∧
       riskRank (higherRisk a b) = max (riskRank a) (riskRank b))) ∧
    (∀ arch files, (∀ e ∈ arch, e.risk ∈ RISK_LEVELS) →
      (assessWithArchitecture arch files).level ∈ RISK_LEVELS) ∧
    (∀ s, s ∉ RISK_LEVELS →
      higherRisk s "critical" = s ∧ higherRisk "critical" s = s) := by
  refine ⟨?_, ?_, ?_⟩
  · intro a b ha hb
    simp only [RISK_LEVELS, List.mem_cons, List.not_mem_nil, or_false] at ha hb
    rcases ha with rfl | rfl | rfl | rfl <;> rcases hb with rfl | rfl | rfl | rfl <;>
      exact ⟨by decide, by decide, by decide⟩
  · intro arch files harch
    show (files.foldl (fileStep arch)
      { impacts := [], level := "low", flags := {}, criticalFileCount := 0,
        highFileCount := 0 }).level ∈ RISK_LEVELS
    refine foldl_preserve (fun s => s.level ∈ RISK_LEVELS) (fileStep arch) files
      { impacts := [], level := "low", flags := {}, criticalFileCount := 0,
        highFileCount := 0 } ?_ (by decide)
    intro b f _ hb
    unfold fileStep
    exact dependencyStep_level _ _ (routeStep_level _ _ (migrationStep_level _ _
      (middlewareStep_level _ _ (dataStep_level _ _ (authStep_level _ _
        (archFold_level arch f.path b harch hb))))))
  · intro s hs
    have h1 : jsIndexOf RISK_LEVELS s = -1 := jsIndexOf_of_not_mem _ _ hs
    have h2 : jsIndexOf RISK_LEVELS "critical" = 0 := rfl
    constructor
    · unfold higherRisk
      rw [h1, h2]
      simp
    · unfold higherRisk
      rw [h1, h2]
      simp

/-- C10 witness: concrete instantiations of all three parts. -/
theorem c10_witness :
    (("high" ∈ RISK_LEVELS ∧ "medium" ∈ RISK_LEVELS) ∧
     (higherRisk "high" "medium" = higherRisk "medium" "high" ∧
      (higherRisk "high" "medium" = "high" ∨ higherRisk "high" "medium" = "medium") ∧
      riskRank (higherRisk "high" "medium") = max (riskRank "high") (riskRank "medium"))) ∧
    ((∀ e ∈ theArchitecture, e.risk ∈ RISK_LEVELS) ∧
     (assessWithArchitecture theArchitecture [exPlainFile]).level ∈ RISK_LEVELS) ∧
    ("weird" ∉ RISK_LEVELS ∧
     higherRisk "weird" "critical" = "weird" ∧ higherRisk "critical" "weird" = "weird") :=
  ⟨⟨⟨by decide, by decide⟩, c10_higher_risk.1 "high" "medium" (by decide) (by decide)⟩,
   ⟨by decide, c10_higher_risk.2.1 theArchitecture [exPlainFile] (by decide)⟩,
   ⟨by decide,
    (c10_higher_risk.2.2 "weird" (by decide)).1,
    (c10_higher_risk.2.2 "weird" (by decide)).2⟩⟩

/-- `any` is insensitive to reversal. -/
theorem any_reverse_eq {α : Type} (l : List α) (p : α → Bool) :
    l.reverse.any p = l.any p := by
  induction l with
  | nil => rfl
  | cons a t ih =>
    simp only [List.reverse_cons, List.any_append, List.any_cons, List.any_nil, ih]
    cases p a <;> cases t.any p <;> rfl

/-- If no file with the given path is found, no file contributes to `any`. -/
theorem any_of_find_none {l : List DiffFile} {p : String} (q : DiffFile → Bool)
    (h : l.find? (fun g => g.path == p) = none) :
    l.any (fun g => g.path == p && q g) = false := by
  rw [List.any_eq_false]
  intro g hg
  have := List.find?_eq_none.mp h g hg
  simp only [Bool.not_eq_true] at this
  simp [this]

/-- With pairwise-distinct paths, `any` over "same path and q" reduces to
`q` of the unique found file. -/
theorem any_of_find_some {l : List DiffFile} {p : String} {f : DiffFile}
    (q : DiffFile → Bool) (hnd : (l.map DiffFile.path).Nodup)
    (h : l.find? (fun g => g.path == p) = some f) :
    l.any (fun g => g.path == p && q g) = q f := by
  have hmem : f ∈ l := List.mem_of_find?_eq_some h
  have hfp : (f.path == p) = true := by simpa using List.find?_some h
  cases hq : q f with
  | true =>
    rw [List.any_eq_true]
    exact ⟨f, hmem, by simp [hfp, hq]⟩
  | false =>
    rw [List.any_eq_false]
    intro g hg
    by_cases hgp : g.path = p
    · have : g = f := by
        refine List.inj_on_of_nodup_map hnd hg hmem ?_
        rw [hgp]
        exact (beq_iff_eq.mp hfp).symm
      rw [this]
      simp [hq]
    · simp [beq_eq_false_iff_ne.mpr hgp]

/-- C4: with pairwise-distinct file paths, `buildReviewComments` keeps a
comment exactly when some file at the comment's path has an addition
change at the comment's line, and every kept comment is anchored to the
new side (`side = RIGHT`). -/
theorem c4_line_reconciliation (comments : List ReviewComment)
    (files : List DiffFile) (hnd : (files.map DiffFile.path).Nodup) :
    buildReviewComments comments files =
      (comments.filter (fun c => files.any (fun f =>
        f.path == c.path &&
          (additionLines f).any (fun n => (n : Int) == c.line)))).map
        (fun c => { path := c.path, line := c.line, side := "RIGHT", body := c.body }) ∧
    (∀ pc ∈ buildReviewComments comments files, pc.side = "RIGHT") := by
  have hpred : ∀ c, commentInDiff files c = files.any (fun f =>
      f.path == c.path && (additionLines f).any (fun n => (n : Int) == c.line)) := by
    intro c
    have hndr : (files.reverse.map DiffFile.path).Nodup := by
      rw [List.map_reverse, List.nodup_reverse]
      exact hnd
    unfold commentInDiff lastFileWithPath
    rw [← any_reverse_eq files]
    cases hfind : files.reverse.find? (fun f => f.path == c.path) with
    | none =>
      rw [any_of_find_none _ hfind]
    | some f =>
      rw [any_of_find_some _ hndr hfind]
  constructor
  · unfold buildReviewComments
    rw [List.filter_congr (fun c _ => hpred c)]
  · intro pc hpc
    unfold buildReviewComments at hpc
    simp only [List.mem_map] at hpc
    obtain ⟨c, -, rfl⟩ := hpc
    rfl

/-- C4 witness: the reconciliation statement at a concrete diff with two
files and three comments (addition line, deletion line, unknown path). -/
theorem c4_witness :
    (exC4Files.map DiffFile.path).Nodup ∧
    (buildReviewComments exC4Comments exC4Files =
      (exC4Comments.filter (fun c => exC4Files.any (fun f =>
        f.path == c.path &&
          (additionLines f).any (fun n => (n : Int) == c.line)))).map
        (fun c => { path := c.path, line := c.line, side := "RIGHT", body := c.body }) ∧
     ∀ pc ∈ buildReviewComments exC4Comments exC4Files, pc.side = "RIGHT") :=
  ⟨by decide, c4_line_reconciliation exC4Comments exC4Files (by decide)⟩

/-- With no open hunk, content lines leave the parser state unchanged. -/
theorem contentStep_of_no_hunk (s : ParseState) (line : String)
    (hh : s.curHunk = none) : contentStep s line = s := by
  unfold contentStep
  rw [hh]

/-- A line that is not a `+++ b/` path line cannot materialize a file and
keeps an empty parser state empty. -/
theorem parseStep_no_file (s : ParseState) (line : String)
    (hf : s.files = []) (hc : s.curFile = none) (hh : s.curHunk = none)
    (hl : strStartsWith line "+++ b/" = false) :
    (parseStep s line).files = [] ∧ (parseStep s line).curFile = none ∧
      (parseStep s line).curHunk = none := by
  unfold parseStep
  split_ifs with h1 h2 h3 h4 h5 h6 h7 h8 h9
  · exact ⟨hf, rfl, rfl⟩
  · exact ⟨hf, hc, hh⟩
  · exact ⟨hf, hc, hh⟩
  · exact ⟨hf, hc, hh⟩
  · exact ⟨hf, hc, hh⟩
  · exact ⟨hf, hc, hh⟩
  · exact ⟨hf, hc, hh⟩
  · exact ⟨hf, hc, hh⟩
  · rw [hl] at h9
    exact absurd h9 (by decide)
  · rw [hc]
    cases hph : parseHunkHeader line with
    | none =>
      rw [contentStep_of_no_hunk s line hh]
      exact ⟨hf, hc, hh⟩
    | some v =>
      rw [contentStep_of_no_hunk s line hh]
      exact ⟨hf, hc, hh⟩

/-- Without `+++ b/` lines the parser materializes nothing. -/
theorem parse_keeps_empty (lines : List String) (s : ParseState)
    (hf : s.files = []) (hc : s.curFile = none) (hh : s.curHunk = none)
    (hl : ∀ l ∈ lines, strStartsWith l "+++ b/" = false) :
    (lines.foldl parseStep s).files = [] := by
  induction lines generalizing s with
  | nil => exact hf
  | cons a t ih =>
    obtain ⟨h1, h2, h3⟩ :=
      parseStep_no_file s a hf hc hh (hl a (List.mem_cons_self a t))
    exact ih (parseStep s a) h1 h2 h3 (fun l hlm => hl l (List.mem_cons_of_mem a hlm))

/-- The empty list is a prefix of everything. -/
theorem nil_isPrefixOf (q : List Char) : ([] : List Char).isPrefixOf q = true := by
  cases q <;> rfl

/-- Two prefixes of the same list are comparable. -/
theorem isPrefixOf_of_isPrefixOf (p q l : List Char) (hp : p.isPrefixOf l = true)
    (hq : q.isPrefixOf l = true) :
    p.isPrefixOf q = true ∨ q.isPrefixOf p = true := by
  induction l generalizing p q with
  | nil =>
    cases p with
    | nil => exact Or.inl (nil_isPrefixOf q)
    | cons a p' => simp [List.isPrefixOf] at hp
  | cons c t ih =>
    cases p with
    | nil => exact Or.inl (nil_isPrefixOf q)
    | cons a p' =>
      cases q with
      | nil => exact Or.inr (nil_isPrefixOf _)
      | cons b q' =>
        simp only [List.isPrefixOf, Bool.and_eq_true] at hp hq ⊢
        obtain ⟨hac, hp'⟩ := hp
        obtain ⟨hbc, hq'⟩ := hq
        have hab : a = b := by
          rw [beq_iff_eq] at hac hbc
          rw [hac, hbc]
        rcases ih p' q' hp' hq' with h | h
        · exact Or.inl ⟨beq_iff_eq.mpr hab, h⟩
        · exact Or.inr ⟨beq_iff_eq.mpr hab.symm, h⟩

/-- A line starting with one of two incomparable literals cannot start
with the other. -/
theorem startsWith_excl (l p q : String)
    (hcompat : (p.toList.isPrefixOf q.toList || q.toList.isPrefixOf p.toList) = false)
    (hp : strStartsWith l p = true) : ¬ (strStartsWith l q = true) := by
  intro hq
  unfold strStartsWith at hp hq
  rcases isPrefixOf_of_isPrefixOf _ _ _ hp hq with h | h
  · rw [h] at hcompat
    simp at hcompat
  · rw [h] at hcompat
    simp at hcompat

/-- A path-preserving element modification keeps the path list. -/
theorem listModify_map_path (l : List DiffFile) (i : Nat) (g : DiffFile → DiffFile)
    (hg : ∀ a, (g a).path = a.path) :
    (listModify l i g).map DiffFile.path = l.map DiffFile.path := by
  induction l generalizing i with
  | nil => rfl
  | cons a t ih =>
    cases i with
    | zero => simp [listModify, hg]
    | succ n => simp [listModify, ih]

/-- `pushChange` keeps the path list. -/
theorem pushChange_map_path (files : List DiffFile) (i j : Nat) (c : Change) :
    (pushChange files i j c).map DiffFile.path = files.map DiffFile.path := by
  unfold pushChange
  exact listModify_map_path _ _ _ (fun a => rfl)

/-- `contentStep` keeps the path list. -/
theorem contentStep_map_path (s : ParseState) (line : String) :
    (contentStep s line).files.map DiffFile.path = s.files.map DiffFile.path := by
  unfold contentStep
  cases hch : s.curHunk with
  | none => cases hcf : s.curFile <;> rfl
  | some ij =>
    obtain ⟨i, j⟩ := ij
    cases hcf : s.curFile with
    | none => rfl
    | some k =>
      split_ifs
      · show (listModify (pushChange s.files i j _) k _).map DiffFile.path =
          s.files.map DiffFile.path
        rw [listModify_map_path, pushChange_map_path]
        intro a
        rfl
      · show (listModify (pushChange s.files i j _) k _).map DiffFile.path =
          s.files.map DiffFile.path
        rw [listModify_map_path, pushChange_map_path]
        intro a
        rfl
      · show (pushChange s.files i j _).map DiffFile.path = s.files.map DiffFile.path
        rw [pushChange_map_path]
      · rfl

/-- Any line other than a `+++ b/` path line keeps the path list. -/
theorem parseStep_files_path (s : ParseState) (l : String)
    (h9 : strStartsWith l "+++ b/" = false) :
    (parseStep s l).files.map DiffFile.path = s.files.map DiffFile.path := by
  dsimp only [parseStep]
  split_ifs with h1 h2 h3 h4 h5 h6 h7 h8 h9'
  · rfl
  · rfl
  · rfl
  · rfl
  · rfl
  · rfl
  · rfl
  · rfl
  · rw [h9] at h9'
    exact absurd h9' (by decide)
  · cases hph : parseHunkHeader l with
    | none =>
      cases hcf : s.curFile with
      | none => exact contentStep_map_path s l
      | some i => exact contentStep_map_path s l
    | some v =>
      obtain ⟨o, n2, ctx⟩ := v
      cases hcf : s.curFile with
      | none => exact contentStep_map_path s l
      | some i =>
        show (listModify s.files i _).map DiffFile.path = s.files.map DiffFile.path
        exact listModify_map_path _ _ _ (fun a => rfl)

/-- Along the whole fold, the materialized paths are exactly the `+++ b/`
lines' paths, in order. -/
theorem parse_paths_fold (lines : List String) (s : ParseState) :
    ((lines.foldl parseStep s).files).map DiffFile.path =
      s.files.map DiffFile.path ++
        ((lines.filter (fun l => strStartsWith l "+++ b/")).map
          (fun l => strDrop l 6)) := by
  induction lines generalizing s with
  | nil => simp
  | cons l rest ih =>
    simp only [List.foldl_cons, List.filter_cons]
    by_cases h9 : strStartsWith l "+++ b/" = true
    · have hd1 := startsWith_excl l "+++ b/" "diff --git" (by decide) h9
      have hd2 := startsWith_excl l "+++ b/" "new file mode" (by decide) h9
      have hd3 := startsWith_excl l "+++ b/" "deleted file mode" (by decide) h9
      have hd4 := startsWith_excl l "+++ b/" "rename from " (by decide) h9
      have hd5 := startsWith_excl l "+++ b/" "rename to " (by decide) h9
      have hd6 := startsWith_excl l "+++ b/" "--- /dev/null" (by decide) h9
      have hd7 := startsWith_excl l "+++ b/" "--- " (by decide) h9
      have hd8 := startsWith_excl l "+++ b/" "+++ /dev/null" (by decide) h9
      have hstep : parseStep s l =
          { s with files := s.files ++
                      [{ path := strDrop l 6, status := s.pendingStatus,
                          hunks := [], additions := 0, deletions := 0 }],
                   curFile := some s.files.length } := by
        dsimp only [parseStep]
        rw [if_neg hd1, if_neg hd2, if_neg hd3, if_neg hd4, if_neg hd5, if_neg hd6,
          if_neg hd7, if_neg hd8, if_pos h9]
      rw [if_pos h9, hstep, ih]
      simp
    · have h9f : strStartsWith l "+++ b/" = false := by
        cases hx : strStartsWith l "+++ b/" with
        | false => rfl
        | true => exact absurd hx h9
      rw [if_neg h9, ih, parseStep_files_path s l h9f]

/-- C6: for every diff text — mixed diffs included — the parsed files
correspond one to one, in order, to the `+++ b/<path>` lines of the text:
a File is materialized exactly when such a line is seen.  A diff entry
whose new side is `/dev/null` has no `+++ b/` line, so pure deletions
never appear in the output; a diff with no `+++ b/` line at all parses to
the empty list, as does the empty diff text. -/
theorem c6_materialize_only_at_path_lines :
    (∀ diffText, (parseDiff diffText).map DiffFile.path =
      ((splitLines diffText).filter (fun l => strStartsWith l "+++ b/")).map
        (fun l => strDrop l 6)) ∧
    (∀ diffText, (∀ l ∈ splitLines diffText, strStartsWith l "+++ b/" = false) →
      parseDiff diffText = []) ∧
    parseDiff "" = [] := by
  refine ⟨?_, ?_, rfl⟩
  · intro dt
    unfold parseDiff
    rw [parse_paths_fold]
    rfl
  · intro dt h
    unfold parseDiff
    exact parse_keeps_empty _ _ rfl rfl rfl h

/-- C6 witness: in the mixed diff the pure-deletion entry `gone.js`
contributes no file — the output is exactly `x.js` and `y.js` — and the
lone pure-deletion diff parses to no files at all. -/
theorem c6_witness :
    ((parseDiff exMixedDiff).map DiffFile.path =
      ((splitLines exMixedDiff).filter (fun l => strStartsWith l "+++ b/")).map
        (fun l => strDrop l 6) ∧
     (parseDiff exMixedDiff).map DiffFile.path = ["x.js", "y.js"]) ∧
    ((∀ l ∈ splitLines exDeletionDiff, strStartsWith l "+++ b/" = false) ∧
     parseDiff exDeletionDiff = []) :=
  ⟨⟨c6_materialize_only_at_path_lines.1 exMixedDiff, by decide⟩,
   ⟨by decide, c6_materialize_only_at_path_lines.2.1 exDeletionDiff (by decide)⟩⟩

/-- Being a prefix extends through a right append. -/
theorem isPrefixOf_append_right (n s t : List Char)
    (h : n.isPrefixOf s = true) : n.isPrefixOf (s ++ t) = true := by
  induction n generalizing s with
  | nil =>
    generalize s ++ t = u
    cases u <;> rfl
  | cons c n' ih =>
    cases s with
    | nil => simp [List.isPrefixOf] at h
    | cons d s' =>
      simp only [List.isPrefixOf, List.cons_append, Bool.and_eq_true] at h ⊢
      exact ⟨h.1, ih s' h.2⟩

/-- The empty needle occurs in every haystack. -/
theorem includesAux_nil_needle (t : List Char) : includesAux [] t = true := by
  induction t with
  | nil => rfl
  | cons c r ih => simp [includesAux]

/-- An occurrence survives a right append. -/
theorem includesAux_append_right (n a t : List Char)
    (h : includesAux n a = true) : includesAux n (a ++ t) = true := by
  induction a with
  | nil =>
    have hn : n.isPrefixOf [] = true := h
    cases n with
    | nil => exact includesAux_nil_needle t
    | cons c n' => simp [List.isPrefixOf] at hn
  | cons c a' ih =>
    simp only [includesAux, List.cons_append, Bool.or_eq_true] at h ⊢
    rcases h with h | h
    · exact Or.inl (isPrefixOf_append_right n (c :: a') t h)
    · exact Or.inr (ih h)

/-- `includes` is monotone under appending text on the right. -/
theorem strIncludes_append_left (s t sub : String)
    (h : strIncludes s sub = true) : strIncludes (s ++ t) sub = true := by
  unfold strIncludes at h ⊢
  rw [show (s ++ t).toList = s.toList ++ t.toList from rfl]
  exact includesAux_append_right _ _ _ h

/-- Every review body this system builds contains the marker substring. -/
theorem marker_in_body (review : Verdict) (pimp : Option Impact)
    (fss : List FileSummary) (tips : List Tip) (lbls : List String)
    (iss : List RelatedIssue) :
    strIncludes (buildReviewBody review pimp fss tips lbls iss)
      REVIEW_MARKER = true := by
  unfold buildReviewBody
  exact strIncludes_append_left "## AI Code Review\n\n" _ _ (by decide)

/-- On a state whose head commit already carries a marked bot review,
`postReview` skips and leaves the state unchanged. -/
theorem postReview_skip (st : PRState) (r : Verdict) (m : String)
    (d : List DiffFile) (p : Option Impact) (f : List FileSummary)
    (t : List Tip) (l : List String) (i : List RelatedIssue)
    (h : hasExistingReview st.reviews st.headSha = true) :
    postReview st r m d p f t l i =
      ({ event := "SKIPPED", commentCount := 0 }, st) := by
  simp [postReview, h]

/-- C5: when the head commit already carries a bot review with the marker,
`postReview` reports a SKIPPED outcome with zero comments and leaves the
platform state untouched (no creation, no dismissal); and starting from a
state without such a review, the first call adds exactly one review and
the second call (with any arguments) skips, leaving the state unchanged —
two runs on an unchanged head commit create exactly one review. -/
theorem c5_idempotent_posting (st : PRState)
    (r1 : Verdict) (m1 : String) (d1 : List DiffFile) (p1 : Option Impact)
    (f1 : List FileSummary) (t1 : List Tip) (l1 : List String)
    (i1 : List RelatedIssue)
    (r2 : Verdict) (m2 : String) (d2 : List DiffFile) (p2 : Option Impact)
    (f2 : List FileSummary) (t2 : List Tip) (l2 : List String)
    (i2 : List RelatedIssue) :
    (hasExistingReview st.reviews st.headSha = true →
      postReview st r1 m1 d1 p1 f1 t1 l1 i1 =
        ({ event := "SKIPPED", commentCount := 0 }, st)) ∧
    (hasExistingReview st.reviews st.headSha = false →
      ((postReview st r1 m1 d1 p1 f1 t1 l1 i1).2.reviews.length =
          st.reviews.length + 1 ∧
        postReview (postReview st r1 m1 d1 p1 f1 t1 l1 i1).2
            r2 m2 d2 p2 f2 t2 l2 i2 =
          ({ event := "SKIPPED", commentCount := 0 },
            (postReview st r1 m1 d1 p1 f1 t1 l1 i1).2))) := by
  constructor
  · intro h
    exact postReview_skip st r1 m1 d1 p1 f1 t1 l1 i1 h
  · intro h
    have hstep : (postReview st r1 m1 d1 p1 f1 t1 l1 i1).2 =
        { st with reviews := dismissPreviousBotReviews st.reviews ++
            [{ user := BOT_LOGIN, commit_id := st.headSha,
               body := buildReviewBody r1 p1 f1 t1 l1 i1,
               state := eventToReviewState
                 (if (buildReviewComments r1.comments d1).length == 0 &&
                     mapApprovalToEvent r1.approval m1 == "COMMENT" &&
                     r1.approval == "approve" then "APPROVE"
                  else mapApprovalToEvent r1.approval m1) }] } := by
      simp [postReview, h]
    have hmark : hasExistingReview
        (postReview st r1 m1 d1 p1 f1 t1 l1 i1).2.reviews
        (postReview st r1 m1 d1 p1 f1 t1 l1 i1).2.headSha = true := by
      rw [hstep]
      simp only [hasExistingReview, List.any_append, List.any_cons, List.any_nil,
        isBotReviewOn, Bool.or_false]
      have hm : strIncludes (buildReviewBody r1 p1 f1 t1 l1 i1)
          REVIEW_MARKER = true := marker_in_body r1 p1 f1 t1 l1 i1
      simp [hm]
    constructor
    · rw [hstep]
      simp [dismissPreviousBotReviews]
    · exact postReview_skip _ r2 m2 d2 p2 f2 t2 l2 i2 hmark

/-- C5 witness: the skip branch at a state whose head commit already has a
marked bot review, and the create-then-skip run from an empty state. -/
theorem c5_witness :
    (hasExistingReview exReviewedState.reviews exReviewedState.headSha = true ∧
      postReview exReviewedState exVerdict "comments-only" [] none [] [] [] [] =
        ({ event := "SKIPPED", commentCount := 0 }, exReviewedState)) ∧
    (hasExistingReview exFreshState.reviews exFreshState.headSha = false ∧
      ((postReview exFreshState exVerdict "comments-only" [] none [] [] [] []).2.reviews.length =
          exFreshState.reviews.length + 1 ∧
        postReview (postReview exFreshState exVerdict "comments-only" [] none [] [] [] []).2
            exVerdict "comments-only" [] none [] [] [] [] =
          ({ event := "SKIPPED", commentCount := 0 },
            (postReview exFreshState exVerdict "comments-only" [] none [] [] [] []).2))) :=
  ⟨⟨by decide,
    (c5_idempotent_posting exReviewedState exVerdict "comments-only" [] none [] [] [] []
      exVerdict "comments-only" [] none [] [] [] []).1 (by decide)⟩,
   ⟨by decide,
    (c5_idempotent_posting exFreshState exVerdict "comments-only" [] none [] [] [] []
      exVerdict "comments-only" [] none [] [] [] []).2 (by decide)⟩⟩

/-- The hunks kept by the truncation loop cost at most the given budget,
measured hunk by hunk. -/
theorem takeHunks_sum_le (l : List Hunk) (r : Nat) :
    ((takeHunks l r).map (fun h => estimateTokens (hunkText h))).sum ≤ r := by
  induction l generalizing r with
  | nil => simp [takeHunks]
  | cons h t ih =>
    simp only [takeHunks]
    split
    · next hle =>
      simp only [List.map_cons, List.sum_cons]
      have := ih (r - estimateTokens (hunkText h))
      omega
    · simp

/-- The truncation loop keeps a leading segment of the hunks. -/
theorem takeHunks_leading (l : List Hunk) (r : Nat) :
    ∃ rest, takeHunks l r ++ rest = l := by
  induction l generalizing r with
  | nil => exact ⟨[], rfl⟩
  | cons h t ih =>
    simp only [takeHunks]
    split
    · obtain ⟨rest, hrest⟩ := ih (r - estimateTokens (hunkText h))
      exact ⟨rest, by rw [List.cons_append, hrest]⟩
    · exact ⟨h :: t, rfl⟩

/-- What a successful `truncateFile` returns: the original file's fields
with a leading segment of its hunks and the truncation marker set. -/
theorem truncateFile_spec (f : DiffFile) (M : Nat) (g : DiffFile)
    (h : truncateFile f M = some g) :
    g.path = f.path ∧ g.status = f.status ∧ g.additions = f.additions ∧
    g.deletions = f.deletions ∧ g.truncated = true ∧
    g.hunks = takeHunks f.hunks
      (M - estimateTokens ("### " ++ f.path ++ statusLabel f ++ " (truncated)\n")) := by
  dsimp only [truncateFile] at h
  split at h
  · exact absurd h (by simp)
  · split at h
    · exact absurd h (by simp)
    · obtain rfl := (Option.some_inj.mp h).symm
      exact ⟨rfl, rfl, rfl, rfl, rfl, rfl⟩

/-- The budget actually charged to a successful partial inclusion: header
estimate plus the per-hunk estimates of the kept hunks fit in `M`. -/
theorem truncateFile_pieces (f : DiffFile) (M : Nat) (g : DiffFile)
    (h : truncateFile f M = some g) :
    estimateTokens ("### " ++ f.path ++ statusLabel f ++ " (truncated)\n") +
      ((g.hunks.map (fun h => estimateTokens (hunkText h))).sum) ≤ M := by
  have hspec := truncateFile_spec f M g h
  have hne : ¬ (M - estimateTokens ("### " ++ f.path ++ statusLabel f ++
      " (truncated)\n") = 0) := by
    dsimp only [truncateFile] at h
    split at h
    · exact absurd h (by simp)
    · next hcond => exact hcond
  rw [hspec.2.2.2.2.2]
  have := takeHunks_sum_le f.hunks
    (M - estimateTokens ("### " ++ f.path ++ statusLabel f ++ " (truncated)\n"))
  omega

/-- Files included so far stay included. -/
theorem allocStep_mem (B : Nat) (acc : List DiffFile × Nat) (f g : DiffFile)
    (hg : g ∈ acc.1) : g ∈ (allocStep B acc f).1 := by
  dsimp only [allocStep]
  split
  · exact List.mem_append_left _ hg
  · split
    · split
      · exact List.mem_append_left _ hg
      · exact hg
    · exact hg

/-- Files included before the fold stay included after it. -/
theorem allocFold_mem (B : Nat) (l : List DiffFile) (acc : List DiffFile × Nat)
    (g : DiffFile) (hg : g ∈ acc.1) : g ∈ (l.foldl (allocStep B) acc).1 := by
  induction l generalizing acc with
  | nil => exact hg
  | cons f t ih => exact ih (allocStep B acc f) (allocStep_mem B acc f g hg)

/-- The greedy fold keeps the running total within budget as long as it
never performs a partial inclusion (whose charge is recomputed with the
real header and the blank lines between hunks and can overflow). -/
theorem alloc_bound (B : Nat) (l : List DiffFile) (acc : List DiffFile × Nat)
    (hacc : acc.2 ≤ B)
    (hclean : ∀ g ∈ (l.foldl (allocStep B) acc).1, g.truncated = false) :
    (l.foldl (allocStep B) acc).2 ≤ B := by
  induction l generalizing acc with
  | nil => exact hacc
  | cons f t ih =>
    simp only [List.foldl_cons] at hclean ⊢
    by_cases hfit : acc.2 + estimateTokens (formatFileForPrompt f) ≤ B
    · have hstep : allocStep B acc f =
          (acc.1 ++ [f], acc.2 + estimateTokens (formatFileForPrompt f)) := by
        unfold allocStep
        rw [if_pos hfit]
      rw [hstep] at hclean ⊢
      exact ih _ hfit hclean
    · by_cases hrem : 200 < B - acc.2
      · cases htr : truncateFile f (B - acc.2) with
        | none =>
          have hstep : allocStep B acc f = acc := by
            dsimp only [allocStep]
            rw [if_neg hfit, if_pos hrem, htr]
          rw [hstep] at hclean ⊢
          exact ih _ hacc hclean
        | some g =>
          exfalso
          have hstep : allocStep B acc f =
              (acc.1 ++ [g],
                acc.2 + estimateTokens (formatFileForPrompt g)) := by
            dsimp only [allocStep]
            rw [if_neg hfit, if_pos hrem, htr]
          have hg : g ∈ (t.foldl (allocStep B) (allocStep B acc f)).1 := by
            refine allocFold_mem B t _ g ?_
            rw [hstep]
            exact List.mem_append_right _ (List.mem_singleton.mpr rfl)
          have h1 := hclean g hg
          have h2 := (truncateFile_spec f _ g htr).2.2.2.2.1
          rw [h1] at h2
          exact absurd h2 (by decide)
      · have hstep : allocStep B acc f = acc := by
          dsimp only [allocStep]
          rw [if_neg hfit, if_neg hrem]
        rw [hstep] at hclean ⊢
        exact ih _ hacc hclean

/-- C2 (counterexample): with a 201-token budget, the partial inclusion of
`exManyHunks` is charged 215 tokens — the result's `estimatedTokens`
exceeds the budget. -/
theorem c2_counterexample :
    (truncateDiff [exManyHunks] 201).estimatedTokens = 215 ∧
    ¬ ((truncateDiff [exManyHunks] 201).estimatedTokens ≤ 201) := by
  decide

/-- C2 (amended): whenever the allocation contains no partially included
file, `estimatedTokens ≤ budget` (each fully included file is charged
exactly its estimate and accepted only if it fits); for a partial
inclusion, what fits in the remaining budget is the truncation-header
estimate plus the per-hunk estimates of the kept hunks, not the truncated
file's full formatted representation, whose estimate can exceed the
remaining budget. -/
theorem c2_amended :
    (∀ files B, (∀ g ∈ (truncateDiff files B).files, g.truncated = false) →
      (truncateDiff files B).estimatedTokens ≤ B) ∧
    (∀ f M g, truncateFile f M = some g →
      estimateTokens ("### " ++ f.path ++ statusLabel f ++ " (truncated)\n") +
        ((g.hunks.map (fun h => estimateTokens (hunkText h))).sum) ≤ M) := by
  constructor
  · intro files B h
    exact alloc_bound B (List.insertionSort priorityGE files) ([], 0)
      (Nat.zero_le B) h
  · intro f M g h
    exact truncateFile_pieces f M g h

/-- C2 witness: a fully included small file stays within a generous
budget, and the concrete partial inclusion of `exManyHunks` satisfies the
piecewise bound. -/
theorem c2_witness :
    ((∀ g ∈ (truncateDiff [exPlainFile] 10000).files, g.truncated = false) ∧
      (truncateDiff [exPlainFile] 10000).estimatedTokens ≤ 10000) ∧
    (truncateFile exManyHunks 201 = some exTruncated ∧
      estimateTokens ("### " ++ exManyHunks.path ++ statusLabel exManyHunks ++
          " (truncated)\n") +
        ((exTruncated.hunks.map (fun h => estimateTokens (hunkText h))).sum) ≤ 201) :=
  ⟨⟨by decide, c2_amended.1 [exPlainFile] 10000 (by decide)⟩,
   ⟨by decide, c2_amended.2 exManyHunks 201 exTruncated (by decide)⟩⟩

/-- `listModify` preserves length. -/
theorem listModify_length {α : Type} (l : List α) (i : Nat) (f : α → α) :
    (listModify l i f).length = l.length := by
  induction l generalizing i with
  | nil => rfl
  | cons a t ih =>
    cases i with
    | zero => rfl
    | succ n => simp [listModify, ih]

/-- Indexing a modified list. -/
theorem listModify_get? {α : Type} (l : List α) (i : Nat) (f : α → α) (k : Nat) :
    (listModify l i f).get? k =
      if k = i then (l.get? i).map f else l.get? k := by
  induction l generalizing i k with
  | nil => simp [listModify]
  | cons a t ih =>
    cases i with
    | zero =>
      cases k with
      | zero => rfl
      | succ m => simp [listModify]
    | succ n =>
      cases k with
      | zero => simp [listModify]
      | succ m =>
        simp only [listModify, List.get?_cons_succ, ih, Nat.succ_eq_add_one]
        by_cases hkm : m = n <;> simp [hkm]

/-- Summing a pointwise measure over a modified list: the measure changes
only at the modified index. -/
theorem sum_map_listModify {α : Type} (l : List α) (i : Nat) (f : α → α)
    (m : α → Nat) (d : Nat) (hi : i < l.length)
    (hd : ∀ a, l.get? i = some a → m (f a) = m a + d) :
    ((listModify l i f).map m).sum = (l.map m).sum + d := by
  induction l generalizing i with
  | nil => simp at hi
  | cons a t ih =>
    cases i with
    | zero =>
      simp only [listModify, List.map_cons, List.sum_cons]
      rw [hd a rfl]
      omega
    | succ n =>
      simp only [listModify, List.map_cons, List.sum_cons]
      rw [ih n (by simpa using hi) (fun b hb => hd b (by simpa using hb))]
      omega

/-- Appending a change to one in-range hunk adjusts the addition count by
1 exactly for an addition change. -/
theorem countAdditions_push (hunks : List Hunk) (j : Nat) (c : Change)
    (hj : j < hunks.length) :
    countAdditions (listModify hunks j
        (fun h => { h with changes := h.changes ++ [c] })) =
      countAdditions hunks +
        (match c with | .addition _ _ => 1 | _ => 0) := by
  unfold countAdditions
  refine sum_map_listModify hunks j _ _ _ hj ?_
  intro a _
  simp only [List.filter_append]
  rw [List.length_append]
  cases c <;> simp

/-- Appending a change to one in-range hunk adjusts the deletion count by
1 exactly for a deletion change. -/
theorem countDeletions_push (hunks : List Hunk) (j : Nat) (c : Change)
    (hj : j < hunks.length) :
    countDeletions (listModify hunks j
        (fun h => { h with changes := h.changes ++ [c] })) =
      countDeletions hunks +
        (match c with | .deletion _ _ => 1 | _ => 0) := by
  unfold countDeletions
  refine sum_map_listModify hunks j _ _ _ hj ?_
  intro a _
  simp only [List.filter_append]
  rw [List.length_append]
  cases c <;> simp

/-- Appending a hunk does not change either count when its change list is
empty. -/
theorem counts_append_empty (hunks : List Hunk) (h0 : Hunk)
    (hc : h0.changes = []) :
    countAdditions (hunks ++ [h0]) = countAdditions hunks ∧
    countDeletions (hunks ++ [h0]) = countDeletions hunks := by
  unfold countAdditions countDeletions
  simp [hc]

/-- `pushChange` preserves the number of files. -/
theorem pushChange_length (files : List DiffFile) (i j : Nat) (c : Change) :
    (pushChange files i j c).length = files.length := by
  unfold pushChange
  exact listModify_length _ _ _

/-- Indexing after `pushChange`: only file `i` changes, and only its hunk
`j` gains the change. -/
theorem pushChange_get? (files : List DiffFile) (i j : Nat) (c : Change) (k : Nat) :
    (pushChange files i j c).get? k =
      if k = i then
        (files.get? i).map (fun f =>
          { f with
            hunks := listModify f.hunks j
                       (fun h => { h with changes := h.changes ++ [c] }) })
      else files.get? k := by
  unfold pushChange
  exact listModify_get? _ _ _ _

/-- `contentStep` never moves the cursors. -/
theorem contentStep_cursor (s : ParseState) (line : String) :
    (contentStep s line).curFile = s.curFile ∧
      (contentStep s line).curHunk = s.curHunk := by
  unfold contentStep
  split
  · split_ifs <;> exact ⟨rfl, rfl⟩
  · exact ⟨rfl, rfl⟩

/-- `contentStep` preserves the number of files. -/
theorem contentStep_files_length (s : ParseState) (line : String) :
    (contentStep s line).files.length = s.files.length := by
  unfold contentStep
  split
  · split_ifs <;> simp [listModify_length, pushChange_length]
  · rfl

/-- The invariant survives one content line. -/
theorem contentStep_inv (s : ParseState) (line : String) (hinv : parseInv s) :
    parseInv (contentStep s line) := by
  unfold contentStep
  cases hch : s.curHunk with
  | none => cases hcf : s.curFile <;> exact hinv
  | some ij =>
    obtain ⟨i, j⟩ := ij
    cases hcf : s.curFile with
    | none => exact hinv
    | some k =>
      obtain ⟨hcfi, fi, hfi, hjlen⟩ := hinv.2.2 i j hch
      have hki : k = i := by
        rw [hcfi] at hcf
        exact (Option.some_inj.mp hcf).symm
      subst hki
      have hilen : k < s.files.length := hinv.2.1 k hcfi
      have hcfix := hinv.1 k fi hfi
      split_ifs with hplus hminus hspace
      · -- addition line
        refine ⟨?_, ?_, ?_⟩
        · intro k' f hk'
          by_cases hk'i : k' = k
          · subst hk'i
            rw [listModify_get?, if_pos rfl, pushChange_get?, if_pos rfl, hfi] at hk'
            simp only [Option.map_some', Option.some_inj] at hk'
            obtain rfl := hk'.symm
            constructor
            · show fi.additions + 1 = countAdditions (listModify fi.hunks j _)
              rw [countAdditions_push fi.hunks j _ hjlen, hcfix.1]
            · show fi.deletions = countDeletions (listModify fi.hunks j _)
              rw [countDeletions_push fi.hunks j _ hjlen, hcfix.2]
              rfl
          · rw [listModify_get?, if_neg hk'i, pushChange_get?, if_neg hk'i] at hk'
            exact hinv.1 k' f hk'
        · intro i' h
          obtain rfl := Option.some_inj.mp h.symm
          rw [listModify_length, pushChange_length]
          exact hilen
        · intro i' j' h
          have h2 : (some (k, j) : Option (Nat × Nat)) = some (i', j') := h
          obtain ⟨rfl, rfl⟩ := Prod.mk.injEq k j i' j' |>.mp (Option.some_inj.mp h2)
          refine ⟨rfl, ?_⟩
          have hget : (listModify (pushChange s.files k j
                (Change.addition (strDrop line 1) s.newLine)) k
                (fun f => { f with additions := f.additions + 1 })).get? k =
              some { fi with
                     hunks := listModify fi.hunks j (fun h =>
                       { h with changes := h.changes ++
                           [Change.addition (strDrop line 1) s.newLine] })
                     additions := fi.additions + 1 } := by
            rw [listModify_get?, if_pos rfl, pushChange_get?, if_pos rfl, hfi]
            rfl
          refine ⟨_, hget, ?_⟩
          show j < (listModify fi.hunks j _).length
          rw [listModify_length]
          exact hjlen
      · -- deletion line
        refine ⟨?_, ?_, ?_⟩
        · intro k' f hk'
          by_cases hk'i : k' = k
          · subst hk'i
            rw [listModify_get?, if_pos rfl, pushChange_get?, if_pos rfl, hfi] at hk'
            simp only [Option.map_some', Option.some_inj] at hk'
            obtain rfl := hk'.symm
            constructor
            · show fi.additions = countAdditions (listModify fi.hunks j _)
              rw [countAdditions_push fi.hunks j _ hjlen, hcfix.1]
              rfl
            · show fi.deletions + 1 = countDeletions (listModify fi.hunks j _)
              rw [countDeletions_push fi.hunks j _ hjlen, hcfix.2]
          · rw [listModify_get?, if_neg hk'i, pushChange_get?, if_neg hk'i] at hk'
            exact hinv.1 k' f hk'
        · intro i' h
          obtain rfl := Option.some_inj.mp h.symm
          rw [listModify_length, pushChange_length]
          exact hilen
        · intro i' j' h
          have h2 : (some (k, j) : Option (Nat × Nat)) = some (i', j') := h
          obtain ⟨rfl, rfl⟩ := Prod.mk.injEq k j i' j' |>.mp (Option.some_inj.mp h2)
          refine ⟨rfl, ?_⟩
          have hget : (listModify (pushChange s.files k j
                (Change.deletion (strDrop line 1) s.oldLine)) k
                (fun f => { f with deletions := f.deletions + 1 })).get? k =
              some { fi with
                     hunks := listModify fi.hunks j (fun h =>
                       { h with changes := h.changes ++
                           [Change.deletion (strDrop line 1) s.oldLine] })
                     deletions := fi.deletions + 1 } := by
            rw [listModify_get?, if_pos rfl, pushChange_get?, if_pos rfl, hfi]
            rfl
          refine ⟨_, hget, ?_⟩
          show j < (listModify fi.hunks j _).length
          rw [listModify_length]
          exact hjlen
      · -- context line
        refine ⟨?_, ?_, ?_⟩
        · intro k' f hk'
          by_cases hk'i : k' = k
          · subst hk'i
            rw [pushChange_get?, if_pos rfl, hfi] at hk'
            simp only [Option.map_some', Option.some_inj] at hk'
            obtain rfl := hk'.symm
            constructor
            · show fi.additions = countAdditions (listModify fi.hunks j _)
              rw [countAdditions_push fi.hunks j _ hjlen, hcfix.1]
              rfl
            · show fi.deletions = countDeletions (listModify fi.hunks j _)
              rw [countDeletions_push fi.hunks j _ hjlen, hcfix.2]
              rfl
          · rw [pushChange_get?, if_neg hk'i] at hk'
            exact hinv.1 k' f hk'
        · intro i' h
          obtain rfl := Option.some_inj.mp h.symm
          rw [pushChange_length]
          exact hilen
        · intro i' j' h
          have h2 : (some (k, j) : Option (Nat × Nat)) = some (i', j') := h
          obtain ⟨rfl, rfl⟩ := Prod.mk.injEq k j i' j' |>.mp (Option.some_inj.mp h2)
          refine ⟨rfl, ?_⟩
          have hget : (pushChange s.files k j
                (Change.context (strDrop line 1) s.oldLine s.newLine)).get? k =
              some { fi with
                     hunks := listModify fi.hunks j (fun h =>
                       { h with changes := h.changes ++
                           [Change.context (strDrop line 1) s.oldLine s.newLine] }) } := by
            rw [pushChange_get?, if_pos rfl, hfi]
            rfl
          refine ⟨_, hget, ?_⟩
          show j < (listModify fi.hunks j _).length
          rw [listModify_length]
          exact hjlen
      · exact hinv

/-- The invariant survives a `diff --git` boundary reset. -/
theorem parseInv_reset (s : ParseState) (hinv : parseInv s) :
    parseInv { s with curFile := none, curHunk := none,
                      pendingStatus := "modified" } := by
  refine ⟨hinv.1, ?_, ?_⟩
  · intro i h
    exact absurd h (by simp)
  · intro i j h
    exact absurd h (by simp)

/-- The invariant survives materializing a new file, provided no hunk is
open (the discipline `scanOk` checks). -/
theorem parseInv_newFile (s : ParseState) (nf : DiffFile)
    (hnf : countsOk nf) (hh : s.curHunk = none) (hinv : parseInv s) :
    parseInv { s with files := s.files ++ [nf],
                      curFile := some s.files.length } := by
  refine ⟨?_, ?_, ?_⟩
  · intro k f hk
    have hk2 : (s.files ++ [nf]).get? k = some f := hk
    rcases Nat.lt_trichotomy k s.files.length with h | h | h
    · rw [List.get?_append h] at hk2
      exact hinv.1 k f hk2
    · subst h
      rw [List.get?_concat_length] at hk2
      obtain rfl := Option.some_inj.mp hk2.symm
      exact hnf
    · rw [List.get?_eq_none.mpr (by simp; omega)] at hk2
      exact absurd hk2 (by simp)
  · intro i h
    have h2 : (some s.files.length : Option Nat) = some i := h
    obtain rfl := Option.some_inj.mp h2
    show s.files.length < (s.files ++ [nf]).length
    simp
  · intro i j h
    have h2 : s.curHunk = some (i, j) := h
    rw [hh] at h2
    exact absurd h2 (by simp)

/-- The invariant survives opening a new hunk on the current file. -/
theorem parseInv_newHunk (s : ParseState) (o n i : Nat) (hk0 : Hunk)
    (hch : hk0.changes = []) (hcf : s.curFile = some i) (hinv : parseInv s) :
    parseInv { s with oldLine := o, newLine := n,
                      files := listModify s.files i
                        (fun f => { f with hunks := f.hunks ++ [hk0] }),
                      curHunk := some (i,
                        ((s.files.get? i).map (fun f => f.hunks.length)).getD 0) } := by
  have hilen : i < s.files.length := hinv.2.1 i hcf
  have hfi : s.files.get? i = some (s.files.get ⟨i, hilen⟩) := List.get?_eq_get hilen
  set fi := s.files.get ⟨i, hilen⟩ with hfidef
  have hcfix := hinv.1 i fi hfi
  refine ⟨?_, ?_, ?_⟩
  · intro k f hk
    have hk2 : (listModify s.files i
        (fun f => { f with hunks := f.hunks ++ [hk0] })).get? k = some f := hk
    rw [listModify_get?] at hk2
    by_cases hki : k = i
    · rw [if_pos hki, hfi] at hk2
      simp only [Option.map_some', Option.some_inj] at hk2
      obtain rfl := hk2.symm
      have hcounts := counts_append_empty fi.hunks hk0 hch
      constructor
      · show fi.additions = countAdditions (fi.hunks ++ [hk0])
        rw [hcounts.1]
        exact hcfix.1
      · show fi.deletions = countDeletions (fi.hunks ++ [hk0])
        rw [hcounts.2]
        exact hcfix.2
    · rw [if_neg hki] at hk2
      exact hinv.1 k f hk2
  · intro i' h
    have h2 : s.curFile = some i' := h
    rw [hcf] at h2
    obtain rfl := Option.some_inj.mp h2
    show i < (listModify s.files i _).length
    rw [listModify_length]
    exact hilen
  · intro i' j' h
    have h2 : (some (i, ((s.files.get? i).map (fun f => f.hunks.length)).getD 0) :
        Option (Nat × Nat)) = some (i', j') := h
    obtain ⟨rfl, rfl⟩ := Prod.mk.injEq i _ i' j' |>.mp (Option.some_inj.mp h2)
    refine ⟨hcf, ?_⟩
    have hget : (listModify s.files i
        (fun f => { f with hunks := f.hunks ++ [hk0] })).get? i =
        some { fi with hunks := fi.hunks ++ [hk0] } := by
      rw [listModify_get?, if_pos rfl, hfi]
      rfl
    refine ⟨_, hget, ?_⟩
    show ((s.files.get? i).map (fun f => f.hunks.length)).getD 0 <
      (fi.hunks ++ [hk0]).length
    rw [hfi]
    simp

/-- The parse invariant holds after folding any line list that passes
the boundary discipline. -/
theorem parse_inv_fold (lines : List String) (s : ParseState)
    (hok : scanOk lines s.curFile.isSome s.curHunk.isSome = true)
    (hinv : parseInv s) : parseInv (lines.foldl parseStep s) := by
  induction lines generalizing s with
  | nil => exact hinv
  | cons l rest ih =>
    simp only [List.foldl_cons]
    simp only [scanOk] at hok
    by_cases h1 : strStartsWith l "diff --git" = true
    · rw [if_pos h1] at hok
      have hstep : parseStep s l =
          { s with curFile := none, curHunk := none,
                   pendingStatus := "modified" } := by
        dsimp only [parseStep]
        rw [if_pos h1]
      rw [hstep]
      exact ih _ hok (parseInv_reset s hinv)
    · rw [if_neg h1] at hok
      by_cases h2 : strStartsWith l "new file mode" = true
      · rw [if_pos h2] at hok
        have hstep : parseStep s l = { s with pendingStatus := "added" } := by
          dsimp only [parseStep]
          rw [if_neg h1, if_pos h2]
        rw [hstep]
        exact ih _ hok hinv
      · rw [if_neg h2] at hok
        by_cases h3 : strStartsWith l "deleted file mode" = true
        · rw [if_pos h3] at hok
          have hstep : parseStep s l = { s with pendingStatus := "deleted" } := by
            dsimp only [parseStep]
            rw [if_neg h1, if_neg h2, if_pos h3]
          rw [hstep]
          exact ih _ hok hinv
        · rw [if_neg h3] at hok
          by_cases h4 : strStartsWith l "rename from " = true
          · rw [if_pos h4] at hok
            have hstep : parseStep s l = { s with pendingStatus := "renamed" } := by
              dsimp only [parseStep]
              rw [if_neg h1, if_neg h2, if_neg h3, if_pos h4]
            rw [hstep]
            exact ih _ hok hinv
          · rw [if_neg h4] at hok
            by_cases h5 : strStartsWith l "rename to " = true
            · rw [if_pos h5] at hok
              have hstep : parseStep s l = s := by
                dsimp only [parseStep]
                rw [if_neg h1, if_neg h2, if_neg h3, if_neg h4, if_pos h5]
              rw [hstep]
              exact ih _ hok hinv
            · rw [if_neg h5] at hok
              by_cases h6 : strStartsWith l "--- /dev/null" = true
              · rw [if_pos h6] at hok
                have hstep : parseStep s l = { s with pendingStatus := "added" } := by
                  dsimp only [parseStep]
                  rw [if_neg h1, if_neg h2, if_neg h3, if_neg h4, if_neg h5, if_pos h6]
                rw [hstep]
                exact ih _ hok hinv
              · rw [if_neg h6] at hok
                by_cases h7 : strStartsWith l "--- " = true
                · rw [if_pos h7] at hok
                  have hstep : parseStep s l = s := by
                    dsimp only [parseStep]
                    rw [if_neg h1, if_neg h2, if_neg h3, if_neg h4, if_neg h5, if_neg h6, if_pos h7]
                  rw [hstep]
                  exact ih _ hok hinv
                · rw [if_neg h7] at hok
                  by_cases h8 : strStartsWith l "+++ /dev/null" = true
                  · rw [if_pos h8] at hok
                    have hstep : parseStep s l = { s with pendingStatus := "deleted" } := by
                      dsimp only [parseStep]
                      rw [if_neg h1, if_neg h2, if_neg h3, if_neg h4, if_neg h5, if_neg h6, if_neg h7, if_pos h8]
                    rw [hstep]
                    exact ih _ hok hinv
                  · rw [if_neg h8] at hok
                    by_cases h9 : strStartsWith l "+++ b/" = true
                    · rw [if_pos h9] at hok
                      rw [Bool.and_eq_true] at hok
                      obtain ⟨hnb, hrest⟩ := hok
                      have hh : s.curHunk = none := by
                        cases hcu : s.curHunk with
                        | none => rfl
                        | some v =>
                          rw [hcu] at hnb
                          simp at hnb
                      have hstep : parseStep s l =
                          { s with files := s.files ++
                                      [{ path := strDrop l 6, status := s.pendingStatus,
                                          hunks := [], additions := 0, deletions := 0 }],
                                   curFile := some s.files.length } := by
                        dsimp only [parseStep]
                        rw [if_neg h1, if_neg h2, if_neg h3, if_neg h4, if_neg h5, if_neg h6, if_neg h7, if_neg h8, if_pos h9]
                      rw [hstep]
                      refine ih _ ?_ (parseInv_newFile s _ ⟨rfl, rfl⟩ hh hinv)
                      show scanOk rest true s.curHunk.isSome = true
                      exact hrest
                    · rw [if_neg h9] at hok
                      cases hph : parseHunkHeader l with
                      | none =>
                        rw [hph] at hok
                        have hstep : parseStep s l = contentStep s l := by
                          dsimp only [parseStep]
                          rw [if_neg h1, if_neg h2, if_neg h3, if_neg h4, if_neg h5, if_neg h6, if_neg h7, if_neg h8, if_neg h9, hph]
                        rw [hstep]
                        have hcc := contentStep_cursor s l
                        refine ih _ ?_ (contentStep_inv s l hinv)
                        rw [hcc.1, hcc.2]
                        exact hok
                      | some v =>
                        obtain ⟨o, n2, ctx⟩ := v
                        rw [hph] at hok
                        cases hcf : s.curFile with
                        | none =>
                          rw [hcf] at hok
                          simp only [Option.isSome_none] at hok
                          rw [if_neg (by decide : ¬ ((false : Bool) = true))] at hok
                          have hstep : parseStep s l = contentStep s l := by
                            dsimp only [parseStep]
                            rw [if_neg h1, if_neg h2, if_neg h3, if_neg h4, if_neg h5, if_neg h6, if_neg h7, if_neg h8, if_neg h9, hph, hcf]
                          rw [hstep]
                          have hcc := contentStep_cursor s l
                          refine ih _ ?_ (contentStep_inv s l hinv)
                          rw [hcc.1, hcc.2, hcf]
                          exact hok
                        | some i =>
                          rw [hcf] at hok
                          simp only [Option.isSome_some, if_true] at hok
                          have hstep : parseStep s l =
                              { s with oldLine := o, newLine := n2,
                                       files := listModify s.files i (fun f =>
                                         { f with hunks := f.hunks ++
                                             [{ header := l, context := strTrim ctx,
                                                 changes := [] }] }),
                                       curHunk := some (i,
                                         ((s.files.get? i).map (fun f => f.hunks.length)).getD 0) } := by
                            dsimp only [parseStep]
                            rw [if_neg h1, if_neg h2, if_neg h3, if_neg h4, if_neg h5, if_neg h6, if_neg h7, if_neg h8, if_neg h9, hph, hcf]
                          rw [hstep]
                          refine ih _ ?_ (parseInv_newHunk s o n2 i _ rfl hcf hinv)
                          show scanOk rest s.curFile.isSome true = true
                          rw [hcf]
                          exact hok

/-- Every file the greedy fold includes is an input file or a successful
truncation of one. -/
theorem allocFold_src (B : Nat) (l : List DiffFile) (acc : List DiffFile × Nat) :
    ∀ g ∈ (l.foldl (allocStep B) acc).1,
      g ∈ acc.1 ∨ ∃ f ∈ l, (g = f ∨ ∃ r, truncateFile f r = some g) := by
  induction l generalizing acc with
  | nil => exact fun g hg => Or.inl hg
  | cons f t ih =>
    intro g hg
    simp only [List.foldl_cons] at hg
    rcases ih (allocStep B acc f) g hg with hacc | ⟨f', hf', hcase⟩
    · have hmem : g ∈ acc.1 ∨ (g = f ∨ ∃ r, truncateFile f r = some g) := by
        revert hacc
        dsimp only [allocStep]
        split
        · intro hacc
          rcases List.mem_append.mp hacc with h | h
          · exact Or.inl h
          · exact Or.inr (Or.inl (List.mem_singleton.mp h))
        · split
          · split
            · next htr =>
              intro hacc
              rcases List.mem_append.mp hacc with h | h
              · exact Or.inl h
              · exact Or.inr (Or.inr ⟨_, by rw [htr, List.mem_singleton.mp h]⟩)
            · exact fun hacc => Or.inl hacc
          · exact fun hacc => Or.inl hacc
      rcases hmem with h | h
      · exact Or.inl h
      · exact Or.inr ⟨f, List.mem_cons_self f t, h⟩
    · exact Or.inr ⟨f', List.mem_cons_of_mem f hf', hcase⟩

/-- C8 (counterexample): on a malformed diff whose second `+++ b/` path
line arrives while the first file's hunk is still open, `parseDiff` emits
a file whose `additions` field disagrees with the addition changes in its
hunks (the count is bumped on the new current file while the change is
pushed into the previous file's hunk). -/
theorem c8_counterexample :
    ∃ f ∈ parseDiff exAliasDiff,
      ¬ (f.additions = countAdditions f.hunks) := by
  decide

/-- C8 (amended): for every diff text respecting the `diff --git`
boundary discipline (no `+++ b/` path line while a hunk is open — true of
standard unified diffs), every parsed File has `additions`/`deletions`
equal to its addition/deletion changes; every File in a `truncateDiff`
result is an input file (unchanged — nothing is mutated) or a fresh value
produced by `truncateFile`, which keeps the original path, status and
counts — so a truncated File's counts refer to the original file, not to
its remaining leading hunks — and marks it truncated. -/
theorem c8_counts_invariant :
    (∀ diffText, scanOk (splitLines diffText) false false = true →
      ∀ f ∈ parseDiff diffText,
        f.additions = countAdditions f.hunks ∧
        f.deletions = countDeletions f.hunks) ∧
    (∀ files B, ∀ g ∈ (truncateDiff files B).files,
      g ∈ files ∨ ∃ f ∈ files, ∃ r, truncateFile f r = some g) ∧
    (∀ f r g, truncateFile f r = some g →
      g.path = f.path ∧ g.status = f.status ∧ g.additions = f.additions ∧
      g.deletions = f.deletions ∧ g.truncated = true ∧ g.hunks <+: f.hunks) := by
  refine ⟨?_, ?_, ?_⟩
  · intro dt hok f hf
    have hinv0 : parseInv initParseState := by
      refine ⟨?_, ?_, ?_⟩
      · intro k f h
        exact absurd h (by simp [initParseState])
      · intro i h
        exact absurd h (by simp [initParseState])
      · intro i j h
        exact absurd h (by simp [initParseState])
    have hinv := parse_inv_fold (splitLines dt) initParseState hok hinv0
    obtain ⟨k, hk⟩ := List.get?_of_mem hf
    exact hinv.1 k f hk
  · intro files B g hg
    rcases allocFold_src B (List.insertionSort priorityGE files) ([], 0) g hg with
      h | ⟨f, hf, hcase⟩
    · exact absurd h (by simp)
    · have hfmem : f ∈ files := (List.mem_insertionSort priorityGE).mp hf
      rcases hcase with rfl | ⟨r, hr⟩
      · exact Or.inl hfmem
      · exact Or.inr ⟨f, hfmem, r, hr⟩
  · intro f r g h
    have hspec := truncateFile_spec f r g h
    obtain ⟨restt, hrest⟩ := takeHunks_leading f.hunks
      (r - estimateTokens ("### " ++ f.path ++ statusLabel f ++ " (truncated)\n"))
    exact ⟨hspec.1, hspec.2.1, hspec.2.2.1, hspec.2.2.2.1, hspec.2.2.2.2.1,
      by rw [hspec.2.2.2.2.2]; exact ⟨restt, hrest⟩⟩

/-- C8 witness: the amended statement at a concrete well-formed diff and
at the concrete partial inclusion of `exManyHunks`. -/
theorem c8_witness :
    (scanOk (splitLines exAuthDiff) false false = true ∧
     ∀ f ∈ parseDiff exAuthDiff,
       f.additions = countAdditions f.hunks ∧
       f.deletions = countDeletions f.hunks) ∧
    (truncateFile exManyHunks 201 = some exTruncated ∧
     (exTruncated.path = exManyHunks.path ∧
      exTruncated.status = exManyHunks.status ∧
      exTruncated.additions = exManyHunks.additions ∧
      exTruncated.deletions = exManyHunks.deletions ∧
      exTruncated.truncated = true ∧
      exTruncated.hunks <+: exManyHunks.hunks)) :=
  ⟨⟨by decide, c8_counts_invariant.1 exAuthDiff (by decide)⟩,
   ⟨by decide, c8_counts_invariant.2.2 exManyHunks 201 exTruncated (by decide)⟩⟩

end PRReview
